import Mathlib

/-!
# DirsComparator: the classification engine of `main.go`

A shallow embedding of `calculateSimilarity`, `Min`, `Max` and of the nested comparison
loop of `main`, followed by the properties proved about them.

Modelling conventions.

* A byte is a `Fin 256`; a `[]byte` is a `List Byte`.
* `uint64` values are natural numbers reduced modulo `2 ^ 64` after every increment and
  addition, as the Go operators do.  `int` values (`len`) are natural numbers; a Go slice
  has fewer than `2 ^ 63` elements, which theorems assume where it matters.
* A Go `map[K]V` is an association list without repeated keys (`GoMap`), with the
  indexing and assignment operations of the language.  Go does not fix the order in which
  `range` visits a map; the model visits keys in insertion order and the order is shown
  to be irrelevant (`commonBytesLoop_perm`).
* `float64` is modelled by `Float64`: the finite values are rationals, every arithmetic
  result is rounded to nearest, ties to even, with 53 significant bits and the exponent
  range of IEEE-754 binary64.
* `crypto/sha256.Sum256` is a library function outside the repository: the loop takes it
  as a parameter `sum256`.
-/

namespace DirsComparator

/-! ## Bytes and files -/

/-- A Go `byte`. -/
abbrev Byte := Fin 256

/-- The modulus of `uint64` arithmetic. -/
def u64 : Nat := 2 ^ 64

/-- The record `type File struct { Path string; Contents []byte }`. -/
structure File where
  Path : String
  Contents : List Byte
  deriving DecidableEq, Repr

/-! ## Go maps -/

/-- A Go map as an association list; the operations below keep its keys distinct. -/
abbrev GoMap (K V : Type) := List (K × V)

namespace GoMap

variable {K V : Type} [DecidableEq K]

/-- The lookup `v, ok := m[k]`. -/
def get? : GoMap K V → K → Option V
  | [], _ => none
  | (k', v) :: rest, k => if k' = k then some v else get? rest k

/-- The expression `m[k]`, which yields the zero value `d` of the element type when the
key is absent. -/
def getD (m : GoMap K V) (k : K) (d : V) : V :=
  match m.get? k with
  | some v => v
  | none => d

/-- The assignment `m[k] = v`: replaces the entry of an existing key, adds one otherwise. -/
def set : GoMap K V → K → V → GoMap K V
  | [], k, v => [(k, v)]
  | (k', v') :: rest, k, v => if k' = k then (k, v) :: rest else (k', v') :: set rest k v

/-- The keys of the map, the values `range m` visits. -/
def keys (m : GoMap K V) : List K := m.map Prod.fst

/-- The test `_, exists := m[k]`. -/
def contains (m : GoMap K V) (k : K) : Bool := (m.get? k).isSome

end GoMap

/-! ## float64 -/

/-- A `float64` value: not-a-number, a finite value, or an infinity.  The sign of a zero
is not recorded: the comparisons do not distinguish the two zeros, and every zero divisor
met here is the conversion of the integer `0`, which is `+0`. -/
inductive Float64 where
  | nan : Float64
  | fin : ℚ → Float64
  | posInf : Float64
  | negInf : Float64
  deriving DecidableEq

namespace Float64

/-- Round a rational to the nearest integer, ties to the even one. -/
def rnInt (t : ℚ) : ℤ :=
  if t - ⌊t⌋ < 1 / 2 then ⌊t⌋
  else if 1 / 2 < t - ⌊t⌋ then ⌊t⌋ + 1
  else if ⌊t⌋ % 2 = 0 then ⌊t⌋ else ⌊t⌋ + 1

/-- The exponent of the unit in the last place of the binary64 numbers of the binade of
`q`: 52 below the binary exponent of `q`, and `-1074` throughout the subnormal range. -/
def ulpExp (q : ℚ) : ℤ := max (Int.log 2 |q|) (-1022) - 52

/-- Round a rational to 53 significant bits (fewer in the subnormal range), to nearest,
ties to even, without regard to overflow. -/
def roundFin (q : ℚ) : ℚ := rnInt (q / 2 ^ ulpExp q) * 2 ^ ulpExp q

/-- The binary64 result of an exact rational `q`: rounded to nearest even, and an
infinity when the rounded magnitude reaches `2 ^ 1024`. -/
def round (q : ℚ) : Float64 :=
  if (2 : ℚ) ^ (1024 : ℕ) ≤ |roundFin q| then (if 0 < q then posInf else negInf)
  else fin (roundFin q)

/-- The conversions `float64(n)` of a `uint64` or a non-negative `int`. -/
def ofNat (n : Nat) : Float64 := round n

/-- The quotient `a / b` of IEEE-754 arithmetic, as Go computes it: no operand makes it
panic.  `0 / 0` and `∞ / ∞` are NaN, a non-zero value over zero is an infinity. -/
def div : Float64 → Float64 → Float64
  | nan, _ => nan
  | _, nan => nan
  | fin a, fin b =>
      if b = 0 then (if a = 0 then nan else if 0 < a then posInf else negInf)
      else round (a / b)
  | fin _, posInf => fin 0
  | fin _, negInf => fin 0
  | posInf, fin b => if b < 0 then negInf else posInf
  | negInf, fin b => if b < 0 then posInf else negInf
  | _, _ => nan

/-- The product `a * b` of IEEE-754 arithmetic; zero times an infinity is NaN. -/
def mul : Float64 → Float64 → Float64
  | nan, _ => nan
  | _, nan => nan
  | fin a, fin b => round (a * b)
  | fin a, posInf => if a = 0 then nan else if 0 < a then posInf else negInf
  | fin a, negInf => if a = 0 then nan else if 0 < a then negInf else posInf
  | posInf, fin b => if b = 0 then nan else if 0 < b then posInf else negInf
  | negInf, fin b => if b = 0 then nan else if 0 < b then negInf else posInf
  | posInf, posInf => posInf
  | negInf, negInf => posInf
  | _, _ => negInf

/-- The comparison `a <= b`; false as soon as an operand is NaN. -/
def le : Float64 → Float64 → Bool
  | nan, _ => false
  | _, nan => false
  | fin a, fin b => decide (a ≤ b)
  | negInf, _ => true
  | _, posInf => true
  | _, _ => false

/-- The comparison `a >= b`. -/
def ge (a b : Float64) : Bool := le b a

/-- The comparison `a == b`; false as soon as an operand is NaN. -/
def beq (a b : Float64) : Bool := le a b && le b a

/-- The comparison `a < b`; false as soon as an operand is NaN. -/
def lt (a b : Float64) : Bool := le a b && !le b a

/-- The comparison `a > b`. -/
def gt (a b : Float64) : Bool := lt b a

end Float64

/-! ## The similarity metric -/

/-- The function `func Min(a, b uint64) uint64`. -/
def Min (a b : Nat) : Nat := if a < b then a else b

/-- The function `func Max(a, b int) int`. -/
def Max (a b : Nat) : Nat := if a < b then b else a

/-- The loop `for _, b := range contents { m[b]++ }` started from the map `m`. -/
def countBytes (m : GoMap Byte Nat) (contents : List Byte) : GoMap Byte Nat :=
  contents.foldl (fun m b => m.set b ((m.getD b 0 + 1) % u64)) m

/-- The loop `for key := range bytesFile1 { commonBytes += Min(bytesFile2[key],
bytesFile1[key]) }` visiting the keys in the order `keys`, started from `acc`. -/
def commonBytesLoop (bytesFile1 bytesFile2 : GoMap Byte Nat) (keys : List Byte)
    (acc : Nat) : Nat :=
  keys.foldl (fun acc key => (acc + Min (bytesFile2.getD key 0) (bytesFile1.getD key 0)) % u64)
    acc

/-- The value of `commonBytes` when `calculateSimilarity` reaches its `return`. -/
def commonBytes (content1 content2 : List Byte) : Nat :=
  let bytesFile1 := countBytes [] content1
  let bytesFile2 := countBytes [] content2
  commonBytesLoop bytesFile1 bytesFile2 bytesFile1.keys 0

/-- The function `func calculateSimilarity(file1 File, file2 File) float64`. -/
def calculateSimilarity (file1 file2 : File) : Float64 :=
  let maxLen := Max file1.Contents.length file2.Contents.length
  let commonBytes := commonBytes file1.Contents file2.Contents
  Float64.mul (Float64.div (Float64.ofNat commonBytes) (Float64.ofNat maxLen))
    (Float64.fin 100)

/-! ## The comparison loop of `main` -/

/-- The four maps `main` fills: `identicalFiles`, `similarFiles`, `similarFilesFromDir1`
and `similarFilesFromDir2` (the last two are sets, `map[string]struct{}`). -/
structure Tables where
  identicalFiles : GoMap String String
  similarFiles : GoMap String (GoMap String Float64)
  similarFilesFromDir1 : GoMap String Unit
  similarFilesFromDir2 : GoMap String Unit
  deriving DecidableEq

/-- The maps as `make` creates them before the loop. -/
def Tables.empty : Tables := ⟨[], [], [], []⟩

/-- The two-level lookup `similarFiles[p][q]` with its presence flag. -/
def lookup2 (m : GoMap String (GoMap String Float64)) (p q : String) : Option Float64 :=
  match m.get? p with
  | some inner => inner.get? q
  | none => none

section Loop

variable {D : Type} [DecidableEq D]

/-- The body of the inner loop of `main` (lines 118-137) for one pair `file1`, `file2`,
with `sum256` standing for `sha256.Sum256`. -/
def compareFiles (sum256 : List Byte → D) (similarityThreshold : Float64) (s : Tables)
    (file1 file2 : File) : Tables :=
  if sum256 file1.Contents = sum256 file2.Contents then
    { s with
      identicalFiles := s.identicalFiles.set file1.Path file2.Path
      similarFilesFromDir1 := s.similarFilesFromDir1.set file1.Path ()
      similarFilesFromDir2 := s.similarFilesFromDir2.set file2.Path () }
  else
    let similarity := calculateSimilarity file1 file2
    if Float64.ge similarity similarityThreshold then
      { s with
        similarFiles :=
          s.similarFiles.set file1.Path
            ((s.similarFiles.getD file1.Path []).set file2.Path similarity)
        similarFilesFromDir1 := s.similarFilesFromDir1.set file1.Path ()
        similarFilesFromDir2 := s.similarFilesFromDir2.set file2.Path () }
    else s

/-- The inner loop `for _, file2 := range files2` for a fixed `file1`. -/
def compareWithDir2 (sum256 : List Byte → D) (similarityThreshold : Float64) (s : Tables)
    (file1 : File) (files2 : List File) : Tables :=
  files2.foldl (fun s file2 => compareFiles sum256 similarityThreshold s file1 file2) s

/-- The nested loop of `main` (lines 116-139), started from the empty maps. -/
def classify (sum256 : List Byte → D) (similarityThreshold : Float64)
    (files1 files2 : List File) : Tables :=
  files1.foldl (fun s file1 => compareWithDir2 sum256 similarityThreshold s file1 files2)
    Tables.empty

/-- The loop body applied to a list of pairs in turn.  The nested loop is this function
on the pairs of the two directories in row order (`classify_eq_foldPairs`). -/
def foldPairs (sum256 : List Byte → D) (similarityThreshold : Float64) (s : Tables)
    (pairs : List (File × File)) : Tables :=
  pairs.foldl (fun s ab => compareFiles sum256 similarityThreshold s ab.1 ab.2) s

/-- The condition under which the loop body marks the pair as matched: equal digests, or
a similarity that reaches the threshold. -/
def matched (sum256 : List Byte → D) (similarityThreshold : Float64)
    (file1 file2 : File) : Bool :=
  decide (sum256 file1.Contents = sum256 file2.Contents) ||
    Float64.ge (calculateSimilarity file1 file2) similarityThreshold

/-- The body of the inner loop of `main` once more, carrying next to the maps the list of
the calls `calculateSimilarity(file1, file2)` made so far: the call stands in the `else`
branch of the digest test, before the threshold test. -/
def compareFilesTraced (sum256 : List Byte → D) (similarityThreshold : Float64)
    (st : Tables × List (File × File)) (file1 file2 : File) :
    Tables × List (File × File) :=
  if sum256 file1.Contents = sum256 file2.Contents then
    ({ st.1 with
        identicalFiles := st.1.identicalFiles.set file1.Path file2.Path
        similarFilesFromDir1 := st.1.similarFilesFromDir1.set file1.Path ()
        similarFilesFromDir2 := st.1.similarFilesFromDir2.set file2.Path () }, st.2)
  else
    let calls := st.2 ++ [(file1, file2)]
    let similarity := calculateSimilarity file1 file2
    if Float64.ge similarity similarityThreshold then
      ({ st.1 with
          similarFiles :=
            st.1.similarFiles.set file1.Path
              ((st.1.similarFiles.getD file1.Path []).set file2.Path similarity)
          similarFilesFromDir1 := st.1.similarFilesFromDir1.set file1.Path ()
          similarFilesFromDir2 := st.1.similarFilesFromDir2.set file2.Path () }, calls)
    else (st.1, calls)

/-- The nested loop of `main` with the list of the calls of `calculateSimilarity` it
makes, in order. -/
def classifyTraced (sum256 : List Byte → D) (similarityThreshold : Float64)
    (files1 files2 : List File) : Tables × List (File × File) :=
  files1.foldl
    (fun st file1 =>
      files2.foldl
        (fun st file2 => compareFilesTraced sum256 similarityThreshold st file1 file2) st)
    (Tables.empty, [])

end Loop

/-- The paths printed under "Files present in dir1 but not in dir2" (lines 168-173), in
the order printed. -/
def onlyInDir1 (s : Tables) (files1 : List File) : List String :=
  (files1.filter (fun file1 => !s.similarFilesFromDir1.contains file1.Path)).map File.Path

/-- The paths printed under "Files present in dir2 but not in dir1" (lines 181-186), in
the order printed. -/
def onlyInDir2 (s : Tables) (files2 : List File) : List String :=
  (files2.filter (fun file2 => !s.similarFilesFromDir2.contains file2.Path)).map File.Path

/-- A collision-free digest, the contents themselves, used to evaluate the loop on
concrete directories: it agrees with SHA-256 on whether two of the contents used are
equal. -/
def contentDigest (contents : List Byte) : List Byte := contents

/-! ## Concrete directories

The scenarios of the specification, with `a = 97`, `b = 98` and `x = 120`. -/

/-- The file `f1` holding `aaaa`. -/
def fileF1 : File := ⟨"f1", [97, 97, 97, 97]⟩

/-- The file `f2` holding `aabb`. -/
def fileF2 : File := ⟨"f2", [97, 97, 98, 98]⟩

/-- The file `f2` holding `aaaa`. -/
def fileF2same : File := ⟨"f2", [97, 97, 97, 97]⟩

/-- An empty file `e1`. -/
def fileE1 : File := ⟨"e1", []⟩

/-- An empty file `e2`. -/
def fileE2 : File := ⟨"e2", []⟩

/-- The file `f3` holding `abab`, a rearrangement of `aabb`. -/
def fileF3 : File := ⟨"f3", [97, 98, 97, 98]⟩

/-- A file of `2 ^ 53 + 1` bytes, all `a`. -/
def fileLong : File := ⟨"long", List.replicate (2 ^ 53 + 1) 97⟩

/-- A file of `2 ^ 53` bytes, all `a`. -/
def fileShorter : File := ⟨"shorter", List.replicate (2 ^ 53) 97⟩

/-- A directory with the single file `a` holding `x`. -/
def dirOne : List File := [⟨"a", [120]⟩]

/-- A directory with two files `b1` and `b2`, both holding `x`. -/
def dirTwoCopies : List File := [⟨"b1", [120]⟩, ⟨"b2", [120]⟩]

/-! ## Go maps: lookup after assignment -/

namespace GoMap

variable {K V : Type} [DecidableEq K]

theorem get?_set (m : GoMap K V) (k k' : K) (v : V) :
    (m.set k v).get? k' = if k = k' then some v else m.get? k' := by
  induction m with
  | nil => simp [set, get?]
  | cons hd tl ih =>
    obtain ⟨a, w⟩ := hd
    by_cases h : a = k
    · subst h
      by_cases h2 : a = k' <;> simp [set, get?, h2]
    · by_cases h2 : a = k'
      · subst h2
        simp [set, get?, h, Ne.symm h]
      · simp [set, get?, h, h2, ih]

theorem getD_set (m : GoMap K V) (k k' : K) (v d : V) :
    (m.set k v).getD k' d = if k = k' then v else m.getD k' d := by
  unfold getD
  rw [get?_set]
  split_ifs <;> rfl

theorem contains_set (m : GoMap K V) (k k' : K) (v : V) :
    (m.set k v).contains k' = (decide (k = k') || m.contains k') := by
  unfold contains
  rw [get?_set]
  split_ifs with h <;> simp [h]

theorem mem_keys_iff (m : GoMap K V) (k : K) : k ∈ m.keys ↔ m.contains k = true := by
  induction m with
  | nil => simp [keys, contains, get?]
  | cons hd tl ih =>
    obtain ⟨a, w⟩ := hd
    have ih2 : k ∈ List.map Prod.fst tl ↔ (get? tl k).isSome = true := by
      simpa [keys, contains] using ih
    by_cases h : a = k
    · simp [keys, contains, get?, h]
    · simp only [keys, contains, get?, List.map_cons, List.mem_cons, if_neg h]
      rw [ih2]
      constructor
      · rintro (h1 | h1)
        · exact absurd h1.symm h
        · exact h1
      · exact fun h1 => Or.inr h1

theorem keys_set (m : GoMap K V) (k : K) (v : V) :
    (m.set k v).keys = if k ∈ m.keys then m.keys else m.keys ++ [k] := by
  induction m with
  | nil => simp [set, keys]
  | cons hd tl ih =>
    obtain ⟨a, w⟩ := hd
    by_cases h : a = k
    · subst h
      simp [set, keys]
    · have ih2 : List.map Prod.fst (set tl k v)
          = if k ∈ List.map Prod.fst tl then List.map Prod.fst tl
            else List.map Prod.fst tl ++ [k] := by
        simpa [keys] using ih
      simp only [set, keys, if_neg h, List.map_cons, List.mem_cons, ih2]
      by_cases h2 : k ∈ List.map Prod.fst tl
      · simp [h2]
      · simp [h2, Ne.symm h]

theorem nodup_keys_set (m : GoMap K V) (k : K) (v : V) (h : m.keys.Nodup) :
    (m.set k v).keys.Nodup := by
  rw [keys_set]
  split_ifs with hk
  · exact h
  · exact List.Nodup.append h (List.nodup_singleton k) (by simpa using hk)

end GoMap

/-! ## The byte histograms -/

theorem Min_eq_min (a b : Nat) : Min a b = min a b := by
  unfold Min
  split_ifs with h
  · exact (Nat.min_eq_left (Nat.le_of_lt h)).symm
  · exact (Nat.min_eq_right (Nat.le_of_not_lt h)).symm

theorem Max_eq_max (a b : Nat) : Max a b = max a b := by
  unfold Max
  split_ifs with h
  · exact (Nat.max_eq_right (Nat.le_of_lt h)).symm
  · exact (Nat.max_eq_left (Nat.le_of_not_lt h)).symm

theorem get?_countBytes (contents : List Byte) (m : GoMap Byte Nat) (b : Byte) :
    (countBytes m contents).get? b =
      if contents.count b = 0 then m.get? b
      else some ((m.getD b 0 + contents.count b) % u64) := by
  induction contents generalizing m with
  | nil => simp [countBytes]
  | cons a tl ih =>
    have hstep : countBytes m (a :: tl) = countBytes (m.set a ((m.getD a 0 + 1) % u64)) tl := by
      simp [countBytes]
    rw [hstep, ih, GoMap.get?_set, GoMap.getD_set]
    by_cases hab : a = b
    · subst hab
      simp only [List.count_cons_self, if_true]
      by_cases h0 : List.count a tl = 0
      · simp [h0]
      · simp only [h0, if_false, Nat.succ_ne_zero, Nat.add_eq_zero, and_false, one_ne_zero]
        congr 1
        simp only [u64]
        omega
    · have hc : List.count b (a :: tl) = List.count b tl := by
        rw [List.count_cons]
        simp [hab]
      simp [hab, hc]

theorem getD_countBytes (contents : List Byte) (b : Byte) :
    (countBytes [] contents).getD b 0 = contents.count b % u64 := by
  unfold GoMap.getD
  rw [get?_countBytes]
  by_cases h0 : contents.count b = 0
  · simp [h0, GoMap.get?]
  · simp [h0, GoMap.get?, GoMap.getD]

theorem nodup_keys_countBytes (contents : List Byte) (m : GoMap Byte Nat)
    (h : m.keys.Nodup) : (countBytes m contents).keys.Nodup := by
  induction contents generalizing m with
  | nil => simpa [countBytes] using h
  | cons a tl ih =>
    have hstep : countBytes m (a :: tl) = countBytes (m.set a ((m.getD a 0 + 1) % u64)) tl := by
      simp [countBytes]
    rw [hstep]
    exact ih _ (GoMap.nodup_keys_set m a _ h)

theorem mem_keys_countBytes (contents : List Byte) (b : Byte) :
    b ∈ (countBytes [] contents).keys ↔ b ∈ contents := by
  rw [GoMap.mem_keys_iff, GoMap.contains, get?_countBytes]
  by_cases h0 : contents.count b = 0
  · have : b ∉ contents := List.count_eq_zero.mp h0
    simp [h0, GoMap.get?, this]
  · have : b ∈ contents := by
      by_contra hb
      exact h0 (List.count_eq_zero.mpr hb)
    simp [h0, this]

/-- The accumulating loop computes the sum of its terms modulo `2 ^ 64`. -/
theorem commonBytesLoop_eq (m1 m2 : GoMap Byte Nat) (keys : List Byte) (acc : Nat) :
    commonBytesLoop m1 m2 keys (acc % u64) =
      (acc + (keys.map (fun key => Min (m2.getD key 0) (m1.getD key 0))).sum) % u64 := by
  induction keys generalizing acc with
  | nil => simp [commonBytesLoop]
  | cons k tl ih =>
    have hstep : commonBytesLoop m1 m2 (k :: tl) (acc % u64) =
        commonBytesLoop m1 m2 tl ((acc + Min (m2.getD k 0) (m1.getD k 0)) % u64) := by
      simp [commonBytesLoop, Nat.mod_add_mod]
    rw [hstep, ih]
    simp [Nat.add_assoc]

/-- The order in which `range` visits the keys of the first histogram does not change
the total. -/
theorem commonBytesLoop_perm (m1 m2 : GoMap Byte Nat) (keys keys2 : List Byte)
    (h : keys.Perm keys2) :
    commonBytesLoop m1 m2 keys 0 = commonBytesLoop m1 m2 keys2 0 := by
  have e1 := commonBytesLoop_eq m1 m2 keys 0
  have e2 := commonBytesLoop_eq m1 m2 keys2 0
  simp only [Nat.zero_mod] at e1 e2
  rw [e1, e2, (h.map _).sum_eq]

/-- The total over the keys of the first histogram, in any order, is the sum over all
256 byte values of the smaller of the two stored counts, modulo `2 ^ 64`. -/
theorem commonBytesLoop_countBytes (x y : List Byte) (keys : List Byte)
    (h : keys.Perm (countBytes [] x).keys) :
    commonBytesLoop (countBytes [] x) (countBytes [] y) keys 0 =
      (∑ v : Byte, min (x.count v % u64) (y.count v % u64)) % u64 := by
  rw [commonBytesLoop_perm _ _ _ _ h]
  have e := commonBytesLoop_eq (countBytes [] x) (countBytes [] y) (countBytes [] x).keys 0
  simp only [Nat.zero_mod, Nat.zero_add] at e
  rw [e]
  refine congrArg (fun n => n % u64) ?_
  have hnd : (countBytes [] x).keys.Nodup := nodup_keys_countBytes x [] (by simp [GoMap.keys])
  rw [← List.sum_toFinset _ hnd]
  rw [Finset.sum_subset (Finset.subset_univ _)]
  · apply Finset.sum_congr rfl
    intro v _
    rw [Min_eq_min, getD_countBytes, getD_countBytes, Nat.min_comm]
  · intro v _ hv
    have hv2 : v ∉ x := by
      intro hx
      exact hv (List.mem_toFinset.mpr ((mem_keys_countBytes x v).mpr hx))
    rw [Min_eq_min, getD_countBytes, getD_countBytes, List.count_eq_zero.mpr hv2]
    simp

theorem commonBytes_eq (x y : List Byte) :
    commonBytes x y = (∑ v : Byte, min (x.count v % u64) (y.count v % u64)) % u64 := by
  unfold commonBytes
  exact commonBytesLoop_countBytes x y _ (List.Perm.refl _)

theorem sum_count_eq_length (x : List Byte) : ∑ v : Byte, x.count v = x.length := by
  induction x with
  | nil => simp
  | cons a tl ih =>
    simp only [List.count_cons, List.length_cons, Finset.sum_add_distrib, ih]
    simp

theorem count_lt_u64 (x : List Byte) (hx : x.length < 2 ^ 63) (v : Byte) :
    x.count v % u64 = x.count v := by
  apply Nat.mod_eq_of_lt
  have h1 : x.count v ≤ x.length := List.count_le_length _ _
  simp only [u64]
  omega

theorem sum_min_count_le_left (x y : List Byte) :
    ∑ v : Byte, min (x.count v) (y.count v) ≤ x.length := by
  rw [← sum_count_eq_length x]
  exact Finset.sum_le_sum (fun v _ => Nat.min_le_left _ _)

theorem sum_min_count_le_right (x y : List Byte) :
    ∑ v : Byte, min (x.count v) (y.count v) ≤ y.length := by
  rw [← sum_count_eq_length y]
  exact Finset.sum_le_sum (fun v _ => Nat.min_le_right _ _)

/-- Without wrap-around, `commonBytes` is the histogram overlap. -/
theorem commonBytes_eq_sum (x y : List Byte) (hx : x.length < 2 ^ 63)
    (hy : y.length < 2 ^ 63) :
    commonBytes x y = ∑ v : Byte, min (x.count v) (y.count v) := by
  rw [commonBytes_eq]
  simp only [count_lt_u64 x hx, count_lt_u64 y hy]
  apply Nat.mod_eq_of_lt
  have := sum_min_count_le_left x y
  simp only [u64]
  omega

theorem commonBytes_comm (x y : List Byte) : commonBytes x y = commonBytes y x := by
  rw [commonBytes_eq, commonBytes_eq]
  refine congrArg (fun n => n % u64) ?_
  exact Finset.sum_congr rfl (fun v _ => Nat.min_comm _ _)

theorem commonBytes_le_max (x y : List Byte) :
    commonBytes x y ≤ Max x.length y.length := by
  rw [commonBytes_eq, Max_eq_max]
  refine le_trans (Nat.mod_le _ _) ?_
  refine le_trans ?_ (le_max_left _ _)
  rw [← sum_count_eq_length x]
  exact Finset.sum_le_sum
    (fun v _ => le_trans (Nat.min_le_left _ _) (Nat.mod_le _ _))

theorem commonBytes_self (x : List Byte) (hx : x.length < 2 ^ 63) :
    commonBytes x x = x.length := by
  rw [commonBytes_eq_sum x x hx hx]
  simp only [min_self]
  exact sum_count_eq_length x

/-! ## Rounding -/

namespace Float64

theorem rnInt_intCast (n : ℤ) : rnInt (n : ℚ) = n := by
  simp [rnInt]

theorem floor_le_rnInt (t : ℚ) : ⌊t⌋ ≤ rnInt t := by
  unfold rnInt
  split_ifs <;> omega

theorem rnInt_le_floor_add_one (t : ℚ) : rnInt t ≤ ⌊t⌋ + 1 := by
  unfold rnInt
  split_ifs <;> omega

/-- Rounding to the nearest integer is monotone. -/
theorem rnInt_mono {t s : ℚ} (h : t ≤ s) : rnInt t ≤ rnInt s := by
  have hf : ⌊t⌋ ≤ ⌊s⌋ := Int.floor_mono h
  rcases lt_or_eq_of_le hf with hlt | heq
  · calc rnInt t ≤ ⌊t⌋ + 1 := rnInt_le_floor_add_one t
      _ ≤ ⌊s⌋ := hlt
      _ ≤ rnInt s := floor_le_rnInt s
  · unfold rnInt
    rw [heq]
    split_ifs <;> first | omega | linarith

theorem ulp_pos (q : ℚ) : (0 : ℚ) < 2 ^ ulpExp q := zpow_pos (by norm_num) _

theorem roundFin_zero : roundFin 0 = 0 := by
  simp [roundFin, rnInt]

theorem roundFin_nonneg {q : ℚ} (h : 0 ≤ q) : 0 ≤ roundFin q := by
  unfold roundFin
  have h1 : (0 : ℚ) ≤ q / 2 ^ ulpExp q := div_nonneg h (ulp_pos q).le
  have h2 : rnInt 0 ≤ rnInt (q / 2 ^ ulpExp q) := rnInt_mono h1
  have h3 : rnInt 0 = 0 := by simpa using rnInt_intCast 0
  rw [h3] at h2
  exact mul_nonneg (by exact_mod_cast h2) (ulp_pos q).le

theorem log_le_ulpExp (q : ℚ) : Int.log 2 |q| ≤ ulpExp q + 52 := by
  unfold ulpExp
  have := le_max_left (Int.log 2 |q|) (-1022)
  omega

/-- A positive value rounds to at most the top of its binade. -/
theorem roundFin_le_top {q : ℚ} (h : 0 < q) : roundFin q ≤ 2 ^ (ulpExp q + 53) := by
  have hlt : q < (2 : ℚ) ^ (Int.log 2 |q| + 1) := by
    have := Int.lt_zpow_succ_log_self (R := ℚ) (b := 2) (by norm_num) q
    rw [abs_of_pos h]
    simpa using this
  have hle : (2 : ℚ) ^ (Int.log 2 |q| + 1) ≤ 2 ^ (ulpExp q + 53) :=
    zpow_le_zpow_right₀ (by norm_num) (by have := log_le_ulpExp q; omega)
  have hq : q / 2 ^ ulpExp q ≤ ((2 ^ 53 : ℤ) : ℚ) := by
    rw [div_le_iff₀ (ulp_pos q)]
    have e : (((2 : ℤ) ^ 53 : ℤ) : ℚ) * 2 ^ ulpExp q = 2 ^ (ulpExp q + 53) := by
      rw [zpow_add₀ (by norm_num : (2 : ℚ) ≠ 0)]
      push_cast
      rw [mul_comm]
      norm_num
    rw [e]
    exact le_trans hlt.le hle
  have hr : rnInt (q / 2 ^ ulpExp q) ≤ (2 ^ 53 : ℤ) := by
    have := rnInt_mono hq
    rwa [rnInt_intCast] at this
  unfold roundFin
  have e : (2 : ℚ) ^ (ulpExp q + 53) = ((2 ^ 53 : ℤ) : ℚ) * 2 ^ ulpExp q := by
    rw [zpow_add₀ (by norm_num : (2 : ℚ) ≠ 0)]
    push_cast
    rw [mul_comm]
    norm_num
  rw [e]
  exact mul_le_mul_of_nonneg_right (by exact_mod_cast hr) (ulp_pos q).le

/-- A positive normal value rounds to at least the bottom of its binade. -/
theorem bottom_le_roundFin {q : ℚ} (h : 0 < q) (hn : -1022 ≤ Int.log 2 |q|) :
    2 ^ (ulpExp q + 52) ≤ roundFin q := by
  have hu : ulpExp q + 52 = Int.log 2 |q| := by
    unfold ulpExp
    rw [max_eq_left hn]
    omega
  have hge : (2 : ℚ) ^ (ulpExp q + 52) ≤ q := by
    rw [hu, abs_of_pos h]
    have := Int.zpow_log_le_self (R := ℚ) (b := 2) (by norm_num) h
    simpa using this
  have e : (2 : ℚ) ^ (ulpExp q + 52) = ((2 ^ 52 : ℤ) : ℚ) * 2 ^ ulpExp q := by
    rw [zpow_add₀ (by norm_num : (2 : ℚ) ≠ 0)]
    push_cast
    rw [mul_comm]
    norm_num
  have hq : ((2 ^ 52 : ℤ) : ℚ) ≤ q / 2 ^ ulpExp q := by
    rw [le_div_iff₀ (ulp_pos q), ← e]
    exact hge
  have hr : (2 ^ 52 : ℤ) ≤ rnInt (q / 2 ^ ulpExp q) := by
    have := rnInt_mono hq
    rwa [rnInt_intCast] at this
  unfold roundFin
  rw [e]
  exact mul_le_mul_of_nonneg_right (by exact_mod_cast hr) (ulp_pos q).le

theorem ulpExp_mono {q r : ℚ} (hq : 0 < q) (h : q ≤ r) : ulpExp q ≤ ulpExp r := by
  unfold ulpExp
  have h1 : Int.log 2 |q| ≤ Int.log 2 |r| := by
    rw [abs_of_pos hq, abs_of_pos (lt_of_lt_of_le hq h)]
    exact Int.log_mono_right hq h
  have := max_le_max h1 (le_refl (-1022 : ℤ))
  omega

/-- Rounding to binary64 precision is monotone on the non-negative rationals. -/
theorem roundFin_mono {q r : ℚ} (hq : 0 ≤ q) (h : q ≤ r) : roundFin q ≤ roundFin r := by
  rcases eq_or_lt_of_le hq with h0 | hpos
  · rw [← h0, roundFin_zero]
    exact roundFin_nonneg (le_trans hq h)
  · have hr : 0 < r := lt_of_lt_of_le hpos h
    rcases eq_or_lt_of_le (ulpExp_mono hpos h) with he | hlt
    · unfold roundFin
      rw [he]
      have h1 : q / 2 ^ ulpExp r ≤ r / 2 ^ ulpExp r :=
        div_le_div_of_nonneg_right h (ulp_pos r).le
      have h2 := rnInt_mono h1
      exact mul_le_mul_of_nonneg_right (by exact_mod_cast h2) (ulp_pos r).le
    · have hn : -1022 ≤ Int.log 2 |r| := by
        by_contra hc
        have e1 : ulpExp r = -1074 := by
          unfold ulpExp
          rw [max_eq_right (by omega)]
          norm_num
        have e2 : -1074 ≤ ulpExp q := by
          unfold ulpExp
          have := le_max_right (Int.log 2 |q|) (-1022)
          omega
        omega
      calc roundFin q ≤ 2 ^ (ulpExp q + 53) := roundFin_le_top hpos
        _ ≤ 2 ^ (ulpExp r + 52) := zpow_le_zpow_right₀ (by norm_num) (by omega)
        _ ≤ roundFin r := bottom_le_roundFin hr hn

/-- A value with at most 53 significant bits and an exponent in range is its own
rounding. -/
theorem roundFin_eq_self (m e : ℤ) (hm : |m| < 2 ^ 53) (he : -1074 ≤ e) :
    roundFin ((m : ℚ) * 2 ^ e) = (m : ℚ) * 2 ^ e := by
  rcases eq_or_ne m 0 with h0 | h0
  · subst h0
    simp [roundFin_zero]
  · have h2e : (0 : ℚ) < 2 ^ e := zpow_pos (by norm_num) _
    have hpos : (0 : ℚ) < |(m : ℚ) * 2 ^ e| := by
      rw [abs_pos]
      exact mul_ne_zero (by exact_mod_cast h0) h2e.ne.symm
    have hlt : |(m : ℚ) * 2 ^ e| < ((2 : ℕ) : ℚ) ^ (e + 53) := by
      have h53 : |(m : ℚ)| < 2 ^ (53 : ℕ) := by exact_mod_cast hm
      rw [Nat.cast_ofNat, abs_mul, abs_of_pos h2e, zpow_add₀ (by norm_num), mul_comm,
        zpow_ofNat]
      exact mul_lt_mul_of_pos_left h53 h2e
    have hlog : Int.log 2 |(m : ℚ) * 2 ^ e| < e + 53 :=
      (Int.lt_zpow_iff_log_lt (by norm_num) hpos).mp hlt
    have hu : ulpExp ((m : ℚ) * 2 ^ e) ≤ e := by
      unfold ulpExp
      have := max_le (show Int.log 2 |(m : ℚ) * 2 ^ e| ≤ e + 52 by omega)
        (show (-1022 : ℤ) ≤ e + 52 by omega)
      omega
    obtain ⟨d, hd⟩ := Int.eq_ofNat_of_zero_le (show 0 ≤ e - ulpExp ((m : ℚ) * 2 ^ e) by omega)
    have hq : (m : ℚ) * 2 ^ e / 2 ^ ulpExp ((m : ℚ) * 2 ^ e) = ((m * 2 ^ d : ℤ) : ℚ) := by
      rw [mul_div_assoc, ← zpow_sub₀ (by norm_num : (2 : ℚ) ≠ 0), hd]
      push_cast
      rw [zpow_natCast]
    unfold roundFin
    rw [hq, rnInt_intCast, ← hq]
    exact div_mul_cancel₀ _ (ulp_pos _).ne.symm

theorem roundFin_natCast_of_lt (n : ℕ) (h : n < 2 ^ 53) : roundFin (n : ℚ) = n := by
  have := roundFin_eq_self (n : ℤ) 0 (by rw [abs_of_nonneg (by positivity)]; exact_mod_cast h)
    (by norm_num)
  simpa using this

theorem roundFin_one : roundFin 1 = 1 := by
  simpa using roundFin_natCast_of_lt 1 (by norm_num)

theorem roundFin_hundred : roundFin 100 = 100 := by
  simpa using roundFin_natCast_of_lt 100 (by norm_num)

theorem roundFin_two_pow_63 : roundFin (2 ^ 63) = 2 ^ 63 := by
  have := roundFin_eq_self 1 63 (by norm_num) (by norm_num)
  rw [zpow_ofNat] at this
  simpa using this

theorem round_eq_fin {q : ℚ} (h : |roundFin q| < 2 ^ 1024) : round q = fin (roundFin q) := by
  unfold round
  rw [if_neg (not_le.mpr h)]

theorem round_eq_fin_of_le {q b : ℚ} (h0 : 0 ≤ q) (hb : q ≤ b) (hbb : roundFin b < 2 ^ 1024) :
    round q = fin (roundFin q) := by
  apply round_eq_fin
  rw [abs_of_nonneg (roundFin_nonneg h0)]
  exact lt_of_le_of_lt (roundFin_mono h0 hb) hbb

theorem round_zero : round 0 = fin 0 := by
  rw [round_eq_fin (by rw [roundFin_zero]; norm_num), roundFin_zero]

theorem ofNat_eq_fin (n : ℕ) (h : n ≤ 2 ^ 63) : ofNat n = fin (roundFin n) := by
  unfold ofNat
  apply round_eq_fin_of_le (b := 2 ^ 63) (by positivity) (by exact_mod_cast h)
  rw [roundFin_two_pow_63]
  norm_num

/-- The value of `float64(c) / float64(m) * 100.0` for integers `c ≤ m` with `m` positive
and in the range of `int`: a finite number between 0 and 100. -/
theorem score_eq (c m : ℕ) (hc : c ≤ m) (hm : 0 < m) (hb : m ≤ 2 ^ 63) :
    mul (div (ofNat c) (ofNat m)) (fin 100)
        = fin (roundFin (roundFin (roundFin c / roundFin m) * 100)) ∧
      0 ≤ roundFin (roundFin (roundFin c / roundFin m) * 100) ∧
      roundFin (roundFin (roundFin c / roundFin m) * 100) ≤ 100 := by
  have hc0 : (0 : ℚ) ≤ (c : ℚ) := by positivity
  have hcm : roundFin (c : ℚ) ≤ roundFin (m : ℚ) := roundFin_mono hc0 (by exact_mod_cast hc)
  have hfc0 : 0 ≤ roundFin (c : ℚ) := roundFin_nonneg hc0
  have h1m : (1 : ℚ) ≤ roundFin (m : ℚ) := by
    have := roundFin_mono (q := 1) (r := (m : ℚ)) (by norm_num) (by exact_mod_cast hm)
    rwa [roundFin_one] at this
  have hmpos : (0 : ℚ) < roundFin (m : ℚ) := lt_of_lt_of_le (by norm_num) h1m
  have hx0 : 0 ≤ roundFin (c : ℚ) / roundFin (m : ℚ) := div_nonneg hfc0 hmpos.le
  have hx1 : roundFin (c : ℚ) / roundFin (m : ℚ) ≤ 1 := (div_le_one hmpos).mpr hcm
  have hrx0 : 0 ≤ roundFin (roundFin (c : ℚ) / roundFin (m : ℚ)) := roundFin_nonneg hx0
  have hrx1 : roundFin (roundFin (c : ℚ) / roundFin (m : ℚ)) ≤ 1 := by
    have := roundFin_mono hx0 hx1
    rwa [roundFin_one] at this
  have hy0 : 0 ≤ roundFin (roundFin (c : ℚ) / roundFin (m : ℚ)) * 100 :=
    mul_nonneg hrx0 (by norm_num)
  have hy1 : roundFin (roundFin (c : ℚ) / roundFin (m : ℚ)) * 100 ≤ 100 := by linarith
  have hdiv : div (ofNat c) (ofNat m) = fin (roundFin (roundFin (c : ℚ) / roundFin (m : ℚ))) := by
    rw [ofNat_eq_fin c (le_trans hc hb), ofNat_eq_fin m hb]
    simp only [div, if_neg hmpos.ne.symm]
    exact round_eq_fin_of_le hx0 hx1 (by rw [roundFin_one]; norm_num)
  refine ⟨?_, roundFin_nonneg hy0, ?_⟩
  · rw [hdiv]
    simp only [mul]
    exact round_eq_fin_of_le hy0 hy1 (by rw [roundFin_hundred]; norm_num)
  · have := roundFin_mono hy0 hy1
    rwa [roundFin_hundred] at this

/-- The value of `float64(n) / float64(n) * 100.0` for a positive `n` is exactly 100. -/
theorem score_self (n : ℕ) (hn : 0 < n) (hb : n ≤ 2 ^ 63) :
    mul (div (ofNat n) (ofNat n)) (fin 100) = fin 100 := by
  have h1m : (1 : ℚ) ≤ roundFin (n : ℚ) := by
    have := roundFin_mono (q := 1) (r := (n : ℚ)) (by norm_num) (by exact_mod_cast hn)
    rwa [roundFin_one] at this
  have hmpos : (0 : ℚ) < roundFin (n : ℚ) := lt_of_lt_of_le (by norm_num) h1m
  rw [(score_eq n n (le_refl n) hn hb).1, div_self hmpos.ne.symm, roundFin_one, one_mul,
    roundFin_hundred]

theorem ge_nan (t : Float64) : ge nan t = false := by
  cases t <;> rfl

end Float64

/-! ## The similarity metric: values -/

theorem Max_comm (a b : Nat) : Max a b = Max b a := by
  rw [Max_eq_max, Max_eq_max, max_comm]

theorem calculateSimilarity_comm (file1 file2 : File) :
    calculateSimilarity file1 file2 = calculateSimilarity file2 file1 := by
  unfold calculateSimilarity
  rw [commonBytes_comm, Max_comm]

/-- On two empty contents the function divides zero by zero. -/
theorem calculateSimilarity_nil (file1 file2 : File) (h1 : file1.Contents = [])
    (h2 : file2.Contents = []) : calculateSimilarity file1 file2 = Float64.nan := by
  unfold calculateSimilarity
  rw [h1, h2]
  have hc : commonBytes [] [] = 0 := rfl
  have hm : Max ([] : List Byte).length ([] : List Byte).length = 0 := rfl
  simp only [hc, hm, Float64.ofNat, Nat.cast_zero, Float64.round_zero]
  simp [Float64.div, Float64.mul]

/-- Scenario 2 of the specification: `aaaa` against `aabb` scores exactly 50. -/
theorem calculateSimilarity_fileF1_fileF2 :
    calculateSimilarity fileF1 fileF2 = Float64.fin 50 := by
  have hc : commonBytes fileF1.Contents fileF2.Contents = 2 := by decide
  have hm : Max fileF1.Contents.length fileF2.Contents.length = 4 := by decide
  unfold calculateSimilarity
  rw [hc, hm, (Float64.score_eq 2 4 (by norm_num) (by norm_num) (by norm_num)).1]
  have h2 : Float64.roundFin ((2 : ℕ) : ℚ) = 2 := by
    simpa using Float64.roundFin_natCast_of_lt 2 (by norm_num)
  have h4 : Float64.roundFin ((4 : ℕ) : ℚ) = 4 := by
    simpa using Float64.roundFin_natCast_of_lt 4 (by norm_num)
  have hhalf : Float64.roundFin (2 / 4) = 1 / 2 := by
    have := Float64.roundFin_eq_self 1 (-1) (by norm_num) (by norm_num)
    norm_num at this ⊢
    exact this
  have h50 : Float64.roundFin (1 / 2 * 100) = 50 := by
    have := Float64.roundFin_natCast_of_lt 50 (by norm_num)
    norm_num at this ⊢
    exact this
  rw [h2, h4, hhalf, h50]

theorem Max_pos_of_ne_nil (x y : List Byte) (h : ¬(x = [] ∧ y = [])) :
    0 < Max x.length y.length := by
  rw [Max_eq_max]
  by_contra hc
  have h0 : max x.length y.length = 0 := by omega
  have hx : x.length = 0 := by
    have := le_max_left x.length y.length
    omega
  have hy : y.length = 0 := by
    have := le_max_right x.length y.length
    omega
  exact h ⟨List.length_eq_zero.mp hx, List.length_eq_zero.mp hy⟩

theorem Max_le_of_lt (x y : List Byte) (hx : x.length < 2 ^ 63) (hy : y.length < 2 ^ 63) :
    Max x.length y.length ≤ 2 ^ 63 := by
  rw [Max_eq_max]
  exact max_le hx.le hy.le

/-! ## The comparison loop: one step -/

theorem lookup2_set (m : GoMap String (GoMap String Float64)) (p1 p2 p q : String)
    (v : Float64) :
    lookup2 (m.set p1 ((m.getD p1 []).set p2 v)) p q =
      if p1 = p ∧ p2 = q then some v else lookup2 m p q := by
  unfold lookup2
  rw [GoMap.get?_set]
  by_cases h1 : p1 = p
  · subst h1
    simp only [if_true, true_and, GoMap.get?_set, GoMap.getD]
    by_cases h2 : p2 = q
    · simp [h2]
    · simp only [if_neg h2]
      cases GoMap.get? m p1 <;> simp [GoMap.get?]
  · simp [h1]

theorem product_cons_eq {α β : Type} (a : α) (l1 : List α) (l2 : List β) :
    (a :: l1).product l2 = l2.map (Prod.mk a) ++ l1.product l2 :=
  List.product_cons a l1 l2

theorem mem_product_iff {α β : Type} (l1 : List α) (l2 : List β) (ab : α × β) :
    ab ∈ l1.product l2 ↔ ab.1 ∈ l1 ∧ ab.2 ∈ l2 := by
  obtain ⟨a, b⟩ := ab
  exact List.mem_product

section LoopFacts

variable {D : Type} [DecidableEq D] (sum256 : List Byte → D) (t : Float64)

theorem compareFiles_dir1 (s : Tables) (a b : File) (p : String) :
    (compareFiles sum256 t s a b).similarFilesFromDir1.contains p =
      (s.similarFilesFromDir1.contains p || (decide (a.Path = p) && matched sum256 t a b)) := by
  unfold compareFiles matched
  by_cases h : sum256 a.Contents = sum256 b.Contents
  · by_cases hp : a.Path = p <;> simp [h, hp, GoMap.contains_set]
  · by_cases hg : (calculateSimilarity a b).ge t = true
    · by_cases hp : a.Path = p <;> simp [h, hg, hp, GoMap.contains_set]
    · simp [h, hg]

theorem compareFiles_dir2 (s : Tables) (a b : File) (q : String) :
    (compareFiles sum256 t s a b).similarFilesFromDir2.contains q =
      (s.similarFilesFromDir2.contains q || (decide (b.Path = q) && matched sum256 t a b)) := by
  unfold compareFiles matched
  by_cases h : sum256 a.Contents = sum256 b.Contents
  · by_cases hp : b.Path = q <;> simp [h, hp, GoMap.contains_set]
  · by_cases hg : (calculateSimilarity a b).ge t = true
    · by_cases hp : b.Path = q <;> simp [h, hg, hp, GoMap.contains_set]
    · simp [h, hg]

theorem compareFiles_identical (s : Tables) (a b : File) (p : String) :
    (compareFiles sum256 t s a b).identicalFiles.get? p =
      if (decide (a.Path = p) && decide (sum256 a.Contents = sum256 b.Contents)) = true
      then some b.Path else s.identicalFiles.get? p := by
  unfold compareFiles
  by_cases h : sum256 a.Contents = sum256 b.Contents
  · by_cases hp : a.Path = p <;> simp [h, hp, GoMap.get?_set]
  · by_cases hg : (calculateSimilarity a b).ge t = true
    · simp [h, hg]
    · simp [h, hg]

theorem compareFiles_similar (s : Tables) (a b : File) (p q : String) :
    lookup2 (compareFiles sum256 t s a b).similarFiles p q =
      if (decide (a.Path = p) && (decide (b.Path = q) &&
          (!decide (sum256 a.Contents = sum256 b.Contents) &&
            (calculateSimilarity a b).ge t))) = true
      then some (calculateSimilarity a b) else lookup2 s.similarFiles p q := by
  unfold compareFiles
  by_cases h : sum256 a.Contents = sum256 b.Contents
  · simp [h]
  · by_cases hg : (calculateSimilarity a b).ge t = true
    · by_cases hp : a.Path = p <;> by_cases hq : b.Path = q <;>
        simp [h, hg, hp, hq, lookup2_set]
    · simp [h, hg]

/-! ## The comparison loop: any list of pairs -/

theorem classify_eq_foldPairs (files1 files2 : List File) :
    classify sum256 t files1 files2 =
      foldPairs sum256 t Tables.empty (files1.product files2) := by
  unfold classify
  generalize Tables.empty = s
  induction files1 generalizing s with
  | nil => rfl
  | cons a tl ih =>
    rw [List.foldl_cons, ih, product_cons_eq]
    unfold foldPairs compareWithDir2
    rw [List.foldl_append, List.foldl_map]

theorem foldPairs_append_singleton (s : Tables) (l : List (File × File)) (ab : File × File) :
    foldPairs sum256 t s (l ++ [ab]) = compareFiles sum256 t (foldPairs sum256 t s l) ab.1 ab.2 := by
  simp [foldPairs, List.foldl_append]

/-- A property every step of the loop preserves holds after the loop. -/
theorem foldPairs_invariant (Inv : Tables → Prop)
    (hstep : ∀ s a b, Inv s → Inv (compareFiles sum256 t s a b))
    (s : Tables) (hs : Inv s) (l : List (File × File)) : Inv (foldPairs sum256 t s l) := by
  induction l using List.reverseRecOn with
  | nil => exact hs
  | append_singleton l ab ih =>
    rw [foldPairs_append_singleton]
    exact hstep _ _ _ ih

theorem foldPairs_dir1 (s : Tables) (l : List (File × File)) (p : String) :
    (foldPairs sum256 t s l).similarFilesFromDir1.contains p =
      (s.similarFilesFromDir1.contains p ||
        l.any (fun ab => decide (ab.1.Path = p) && matched sum256 t ab.1 ab.2)) := by
  induction l using List.reverseRecOn with
  | nil => simp [foldPairs]
  | append_singleton l ab ih =>
    rw [foldPairs_append_singleton, compareFiles_dir1, ih, List.any_append]
    simp [Bool.or_assoc]

theorem foldPairs_dir2 (s : Tables) (l : List (File × File)) (q : String) :
    (foldPairs sum256 t s l).similarFilesFromDir2.contains q =
      (s.similarFilesFromDir2.contains q ||
        l.any (fun ab => decide (ab.2.Path = q) && matched sum256 t ab.1 ab.2)) := by
  induction l using List.reverseRecOn with
  | nil => simp [foldPairs]
  | append_singleton l ab ih =>
    rw [foldPairs_append_singleton, compareFiles_dir2, ih, List.any_append]
    simp [Bool.or_assoc]

/-- The entry of a map written by the loop is the one written by the last pair that
writes it. -/
theorem foldPairs_last {V : Type} (look : Tables → Option V) (P : File × File → Bool)
    (v : File × File → V)
    (hstep : ∀ s a b, look (compareFiles sum256 t s a b) =
      if P (a, b) = true then some (v (a, b)) else look s)
    (s : Tables) (l : List (File × File)) :
    look (foldPairs sum256 t s l) =
      match (l.filter P).getLast? with
      | some ab => some (v ab)
      | none => look s := by
  induction l using List.reverseRecOn with
  | nil => simp [foldPairs]
  | append_singleton l ab ih =>
    rw [foldPairs_append_singleton, hstep, ih, List.filter_append]
    by_cases hP : P ab = true
    · have : List.filter P [ab] = [ab] := by simp [hP]
      simp [hP, this]
    · have : List.filter P [ab] = [] := by simp [hP]
      simp [hP, this]

/-! ## The comparison loop: the final maps -/

/-- Among the pairs of two directories, those whose first file has the path of a file
`a` of the first directory are the pairs of `a` itself, when paths are unique. -/
theorem filter_product_path (A B : List File) (a : File) (ha : a ∈ A)
    (hn : (A.map File.Path).Nodup) (Q : File → File → Bool) :
    (A.product B).filter (fun ab => decide (ab.1.Path = a.Path) && Q ab.1 ab.2) =
      (B.filter (Q a)).map (Prod.mk a) := by
  induction A with
  | nil => simp at ha
  | cons a2 tl ih =>
    rw [product_cons_eq, List.filter_append, List.filter_map]
    rw [List.map_cons, List.nodup_cons] at hn
    by_cases h : a2 = a
    · subst h
      have h2 : List.filter (fun ab => decide (ab.1.Path = a2.Path) && Q ab.1 ab.2)
          (tl.product B) = [] := by
        rw [List.filter_eq_nil_iff]
        intro ab hab hP
        rw [mem_product_iff] at hab
        simp only [Bool.and_eq_true, decide_eq_true_eq] at hP
        exact hn.1 (hP.1 ▸ List.mem_map_of_mem File.Path hab.1)
      rw [h2, List.append_nil]
      congr 1
      apply List.filter_congr
      intro b _
      simp
    · have hat : a ∈ tl := by
        rcases List.mem_cons.mp ha with h1 | h1
        · exact absurd h1.symm h
        · exact h1
      have hne : a2.Path ≠ a.Path := by
        intro he
        exact hn.1 (he ▸ List.mem_map_of_mem File.Path hat)
      have h1 : List.filter
          ((fun ab => decide (ab.1.Path = a.Path) && Q ab.1 ab.2) ∘ Prod.mk a2) B = [] := by
        rw [List.filter_eq_nil_iff]
        intro b _ hP
        simp only [Function.comp, Bool.and_eq_true, decide_eq_true_eq] at hP
        exact hne hP.1
      rw [h1, List.map_nil, List.nil_append]
      exact ih hat hn.2

theorem filter_product_no_path (A B : List File) (p : String)
    (hp : p ∉ A.map File.Path) (Q : File → File → Bool) :
    (A.product B).filter (fun ab => decide (ab.1.Path = p) && Q ab.1 ab.2) = [] := by
  rw [List.filter_eq_nil_iff]
  intro ab hab hP
  rw [mem_product_iff] at hab
  simp only [Bool.and_eq_true, decide_eq_true_eq] at hP
  exact hp (hP.1 ▸ List.mem_map_of_mem File.Path hab.1)

/-- In a directory with unique paths, the records of a given path that pass a test are
the record of that path alone, if it passes. -/
theorem getLast?_filter_path (B : List File) (b : File) (hb : b ∈ B)
    (hn : (B.map File.Path).Nodup) (X : File → Bool) :
    (B.filter (fun b2 => decide (b2.Path = b.Path) && X b2)).getLast? =
      if X b = true then some b else none := by
  cases hl : (B.filter (fun b2 => decide (b2.Path = b.Path) && X b2)).getLast? with
  | none =>
    rw [List.getLast?_eq_none_iff, List.filter_eq_nil_iff] at hl
    have := hl b hb
    simp only [decide_True, Bool.true_and] at this
    rw [if_neg this]
  | some x =>
    have hx := List.mem_of_getLast?_eq_some hl
    rw [List.mem_filter] at hx
    simp only [Bool.and_eq_true, decide_eq_true_eq] at hx
    have hxb : x = b := List.inj_on_of_nodup_map hn hx.1 hb hx.2.1
    subst hxb
    rw [if_pos hx.2.2]

/-- The entry of `identicalFiles` for a path, after the loop: written by the last pair,
in loop order, whose first file has that path and whose digests are equal. -/
theorem identical_lookup (A B : List File) (p : String) :
    (classify sum256 t A B).identicalFiles.get? p =
      (((A.product B).filter (fun ab => decide (ab.1.Path = p) &&
          decide (sum256 ab.1.Contents = sum256 ab.2.Contents))).getLast?).map
        (fun ab => ab.2.Path) := by
  rw [classify_eq_foldPairs]
  rw [foldPairs_last sum256 t (fun s => s.identicalFiles.get? p)
    (fun ab => decide (ab.1.Path = p) && decide (sum256 ab.1.Contents = sum256 ab.2.Contents))
    (fun ab => ab.2.Path) (fun s a b => compareFiles_identical sum256 t s a b p)]
  cases ((A.product B).filter _).getLast? <;> rfl

/-- The entry `similarFiles[p][q]` after the loop: written by the last pair, in loop
order, with these two paths, different digests and a similarity reaching the threshold. -/
theorem similar_lookup (A B : List File) (p q : String) :
    lookup2 (classify sum256 t A B).similarFiles p q =
      (((A.product B).filter (fun ab => decide (ab.1.Path = p) && (decide (ab.2.Path = q) &&
          (!decide (sum256 ab.1.Contents = sum256 ab.2.Contents) &&
            (calculateSimilarity ab.1 ab.2).ge t)))).getLast?).map
        (fun ab => calculateSimilarity ab.1 ab.2) := by
  rw [classify_eq_foldPairs]
  rw [foldPairs_last sum256 t (fun s => lookup2 s.similarFiles p q)
    (fun ab => decide (ab.1.Path = p) && (decide (ab.2.Path = q) &&
          (!decide (sum256 ab.1.Contents = sum256 ab.2.Contents) &&
            (calculateSimilarity ab.1 ab.2).ge t)))
    (fun ab => calculateSimilarity ab.1 ab.2)
    (fun s a b => compareFiles_similar sum256 t s a b p q)]
  cases ((A.product B).filter _).getLast? <;> rfl

/-- With unique paths in the first directory, `identicalFiles` maps the path of `a` to
the path of the last file of the second directory with the digest of `a`. -/
theorem identical_unique (A B : List File) (a : File) (ha : a ∈ A)
    (hn : (A.map File.Path).Nodup) :
    (classify sum256 t A B).identicalFiles.get? a.Path =
      ((B.filter (fun b => decide (sum256 a.Contents = sum256 b.Contents))).getLast?).map
        File.Path := by
  rw [identical_lookup, filter_product_path A B a ha hn
    (fun x y => decide (sum256 x.Contents = sum256 y.Contents)), List.getLast?_map,
    Option.map_map]
  rfl

/-- With unique paths in both directories, `similarFiles[a.Path][b.Path]` holds the
similarity of `a` and `b` when their digests differ and it reaches the threshold, and is
absent otherwise. -/
theorem similar_unique (A B : List File) (a b : File) (ha : a ∈ A) (hb : b ∈ B)
    (hnA : (A.map File.Path).Nodup) (hnB : (B.map File.Path).Nodup) :
    lookup2 (classify sum256 t A B).similarFiles a.Path b.Path =
      if (!decide (sum256 a.Contents = sum256 b.Contents) &&
          (calculateSimilarity a b).ge t) = true
      then some (calculateSimilarity a b) else none := by
  rw [similar_lookup, filter_product_path A B a ha hnA
    (fun x y => decide (y.Path = b.Path) &&
      (!decide (sum256 x.Contents = sum256 y.Contents) && (calculateSimilarity x y).ge t)),
    List.getLast?_map, getLast?_filter_path B b hb hnB
      (fun y => !decide (sum256 a.Contents = sum256 y.Contents) &&
        (calculateSimilarity a y).ge t)]
  split_ifs <;> rfl

theorem dir1_contains_iff (A B : List File) (p : String) :
    (classify sum256 t A B).similarFilesFromDir1.contains p = true ↔
      ∃ a ∈ A, ∃ b ∈ B, a.Path = p ∧ matched sum256 t a b = true := by
  rw [classify_eq_foldPairs, foldPairs_dir1]
  simp only [Tables.empty, GoMap.contains, GoMap.get?, Option.isSome_none, Bool.false_or,
    List.any_eq_true, Bool.and_eq_true, decide_eq_true_eq]
  constructor
  · rintro ⟨ab, hab, h1, h2⟩
    rw [mem_product_iff] at hab
    exact ⟨ab.1, hab.1, ab.2, hab.2, h1, h2⟩
  · rintro ⟨a, ha, b, hb, h1, h2⟩
    exact ⟨(a, b), (mem_product_iff A B (a, b)).mpr ⟨ha, hb⟩, h1, h2⟩

theorem dir2_contains_iff (A B : List File) (q : String) :
    (classify sum256 t A B).similarFilesFromDir2.contains q = true ↔
      ∃ a ∈ A, ∃ b ∈ B, b.Path = q ∧ matched sum256 t a b = true := by
  rw [classify_eq_foldPairs, foldPairs_dir2]
  simp only [Tables.empty, GoMap.contains, GoMap.get?, Option.isSome_none, Bool.false_or,
    List.any_eq_true, Bool.and_eq_true, decide_eq_true_eq]
  constructor
  · rintro ⟨ab, hab, h1, h2⟩
    rw [mem_product_iff] at hab
    exact ⟨ab.1, hab.1, ab.2, hab.2, h1, h2⟩
  · rintro ⟨a, ha, b, hb, h1, h2⟩
    exact ⟨(a, b), (mem_product_iff A B (a, b)).mpr ⟨ha, hb⟩, h1, h2⟩

/-- A path is marked in `similarFilesFromDir1` exactly when it is a key of
`identicalFiles` or of `similarFiles`. -/
theorem dir1_eq_keys (A B : List File) (p : String) :
    (classify sum256 t A B).similarFilesFromDir1.contains p =
      ((classify sum256 t A B).identicalFiles.contains p ||
        (classify sum256 t A B).similarFiles.contains p) := by
  rw [classify_eq_foldPairs]
  apply foldPairs_invariant sum256 t
    (fun s => s.similarFilesFromDir1.contains p =
      (s.identicalFiles.contains p || s.similarFiles.contains p))
  · intro s a b hs
    unfold compareFiles
    by_cases h : sum256 a.Contents = sum256 b.Contents
    · by_cases hp : a.Path = p <;> simp [h, hp, hs, GoMap.contains_set]
    · by_cases hg : (calculateSimilarity a b).ge t = true
      · by_cases hp : a.Path = p <;> simp [h, hg, hp, hs, GoMap.contains_set]
      · simp [h, hg, hs]
  · rfl

/-- Every value of `identicalFiles` and every inner key of `similarFiles` is marked in
`similarFilesFromDir2`. -/
theorem dir2_of_entry (A B : List File) (q : String) :
    ((∃ p, (classify sum256 t A B).identicalFiles.get? p = some q) ∨
      (∃ p v, lookup2 (classify sum256 t A B).similarFiles p q = some v)) →
      (classify sum256 t A B).similarFilesFromDir2.contains q = true := by
  rw [classify_eq_foldPairs]
  apply foldPairs_invariant sum256 t
    (fun s => ((∃ p, s.identicalFiles.get? p = some q) ∨
      (∃ p v, lookup2 s.similarFiles p q = some v)) →
      s.similarFilesFromDir2.contains q = true)
  · intro s a b hs hq
    rw [compareFiles_dir2]
    by_cases hm : (decide (b.Path = q) && matched sum256 t a b) = true
    · simp [hm]
    · rw [Bool.or_eq_true]
      left
      apply hs
      rcases hq with ⟨p, hp⟩ | ⟨p, v, hp⟩
      · left
        refine ⟨p, ?_⟩
        rw [compareFiles_identical] at hp
        split_ifs at hp with hc
        · exfalso
          apply hm
          simp only [Bool.and_eq_true, decide_eq_true_eq] at hc
          simp only [Option.some.injEq] at hp
          simp [matched, hc.2, hp]
        · exact hp
      · right
        refine ⟨p, v, ?_⟩
        rw [compareFiles_similar] at hp
        split_ifs at hp with hc
        · exfalso
          apply hm
          simp only [Bool.and_eq_true, decide_eq_true_eq] at hc
          simp [matched, hc.2.1, hc.2.2.2]
        · exact hp
  · rintro (⟨p, hp⟩ | ⟨p, v, hp⟩)
    · simp [Tables.empty, GoMap.get?] at hp
    · simp [Tables.empty, lookup2, GoMap.get?] at hp

theorem identical_contains_iff (A B : List File) (p : String) :
    (classify sum256 t A B).identicalFiles.contains p = true ↔
      ∃ a ∈ A, ∃ b ∈ B, a.Path = p ∧ sum256 a.Contents = sum256 b.Contents := by
  unfold GoMap.contains
  rw [identical_lookup, Option.isSome_map', List.getLast?_isSome, Ne, List.filter_eq_nil_iff]
  simp only [Bool.and_eq_true, decide_eq_true_eq, not_forall, not_not, exists_prop]
  constructor
  · rintro ⟨ab, hab, h1, h2⟩
    rw [mem_product_iff] at hab
    exact ⟨ab.1, hab.1, ab.2, hab.2, h1, h2⟩
  · rintro ⟨a, ha, b, hb, h1, h2⟩
    exact ⟨(a, b), (mem_product_iff A B (a, b)).mpr ⟨ha, hb⟩, h1, h2⟩

/-- Every entry of `similarFiles` was written for a pair of files with these paths,
different digests and a similarity that reaches the threshold. -/
theorem similar_entry_sound (A B : List File) (p q : String) (v : Float64)
    (h : lookup2 (classify sum256 t A B).similarFiles p q = some v) :
    ∃ a ∈ A, ∃ b ∈ B, a.Path = p ∧ b.Path = q ∧
      sum256 a.Contents ≠ sum256 b.Contents ∧ v = calculateSimilarity a b ∧
      Float64.ge v t = true := by
  rw [similar_lookup, Option.map_eq_some'] at h
  obtain ⟨ab, hl, hv⟩ := h
  have hm := List.mem_of_getLast?_eq_some hl
  rw [List.mem_filter, mem_product_iff] at hm
  simp only [Bool.and_eq_true, decide_eq_true_eq, Bool.not_eq_true', decide_eq_false_iff_not]
    at hm
  exact ⟨ab.1, hm.1.1, ab.2, hm.1.2, hm.2.1, hm.2.2.1, hm.2.2.2.1, hv.symm,
    hv ▸ hm.2.2.2.2⟩

theorem mem_onlyInDir1_iff (s : Tables) (A : List File) (p : String) :
    p ∈ onlyInDir1 s A ↔ p ∈ A.map File.Path ∧ s.similarFilesFromDir1.contains p = false := by
  unfold onlyInDir1
  simp only [List.mem_map, List.mem_filter, Bool.not_eq_true', Bool.not_eq_true]
  constructor
  · rintro ⟨a, ⟨ha, hc⟩, rfl⟩
    exact ⟨⟨a, ha, rfl⟩, hc⟩
  · rintro ⟨⟨a, ha, rfl⟩, hc⟩
    exact ⟨a, ⟨ha, hc⟩, rfl⟩

theorem mem_onlyInDir2_iff (s : Tables) (B : List File) (q : String) :
    q ∈ onlyInDir2 s B ↔ q ∈ B.map File.Path ∧ s.similarFilesFromDir2.contains q = false := by
  unfold onlyInDir2
  simp only [List.mem_map, List.mem_filter, Bool.not_eq_true', Bool.not_eq_true]
  constructor
  · rintro ⟨b, ⟨hb, hc⟩, rfl⟩
    exact ⟨⟨b, hb, rfl⟩, hc⟩
  · rintro ⟨⟨b, hb, rfl⟩, hc⟩
    exact ⟨b, ⟨hb, hc⟩, rfl⟩

end LoopFacts

/-! ## The similarity metric: properties -/

/-- C1: for all byte sequences, empty ones included, `calculateSimilarity` returns the
same value on `(x, y)` as on `(y, x)`.  (On two empty sequences both calls return NaN.) -/
theorem C1_calculateSimilarity_symmetric (file1 file2 : File) :
    calculateSimilarity file1 file2 = calculateSimilarity file2 file1 :=
  calculateSimilarity_comm file1 file2

/-- C2, as stated, fails on two empty sequences: the result is NaN, and neither
`0.0 <= NaN` nor `NaN <= 100.0` holds. -/
theorem C2_counterexample :
    ¬(Float64.le (Float64.fin 0) (calculateSimilarity fileE1 fileE2) = true ∧
      Float64.le (calculateSimilarity fileE1 fileE2) (Float64.fin 100) = true) := by
  rw [calculateSimilarity_nil fileE1 fileE2 rfl rfl]
  simp [Float64.le]

/-- C2, amended: for byte sequences that are not both empty (and of a length a Go slice
can have), the value of `calculateSimilarity` satisfies `0.0 <= value <= 100.0`. -/
theorem C2_range_of_not_both_empty (file1 file2 : File)
    (hne : ¬(file1.Contents = [] ∧ file2.Contents = []))
    (h1 : file1.Contents.length < 2 ^ 63) (h2 : file2.Contents.length < 2 ^ 63) :
    Float64.le (Float64.fin 0) (calculateSimilarity file1 file2) = true ∧
      Float64.le (calculateSimilarity file1 file2) (Float64.fin 100) = true := by
  obtain ⟨he, h0, h100⟩ := Float64.score_eq (commonBytes file1.Contents file2.Contents)
    (Max file1.Contents.length file2.Contents.length)
    (commonBytes_le_max _ _) (Max_pos_of_ne_nil _ _ hne) (Max_le_of_lt _ _ h1 h2)
  unfold calculateSimilarity
  rw [he]
  simp only [Float64.le, decide_eq_true_eq]
  exact ⟨h0, h100⟩

theorem C2_range_of_not_both_empty_witness :
    ¬(fileF1.Contents = [] ∧ fileF2.Contents = []) ∧
      Float64.le (Float64.fin 0) (calculateSimilarity fileF1 fileF2) = true ∧
      Float64.le (calculateSimilarity fileF1 fileF2) (Float64.fin 100) = true :=
  ⟨by decide, C2_range_of_not_both_empty fileF1 fileF2 (by decide) (by decide) (by decide)⟩

/-- C3: for every non-empty byte sequence `x` (of a length a Go slice can have),
`calculateSimilarity(x, x)` is exactly `100.0`. -/
theorem C3_calculateSimilarity_self (file : File) (hne : file.Contents ≠ [])
    (hlen : file.Contents.length < 2 ^ 63) :
    calculateSimilarity file file = Float64.fin 100 := by
  unfold calculateSimilarity
  rw [commonBytes_self _ hlen]
  have hM : Max file.Contents.length file.Contents.length = file.Contents.length := by
    rw [Max_eq_max, max_self]
  rw [hM]
  exact Float64.score_self _ (List.length_pos.mpr hne) hlen.le

theorem C3_calculateSimilarity_self_witness :
    fileF1.Contents ≠ [] ∧ fileF1.Contents.length < 2 ^ 63 ∧
      calculateSimilarity fileF1 fileF1 = Float64.fin 100 :=
  ⟨by decide, by decide, C3_calculateSimilarity_self fileF1 (by decide) (by decide)⟩

/-- C4: the `commonBytes` total accumulated by visiting only the byte values present in
`x`, in whatever order `range` yields them, is the sum over all 256 byte values `v` of
`min (count of v in x) (count of v in y)`; so is the value `calculateSimilarity` uses.
The lengths are those a Go slice can have. -/
theorem C4_commonBytes_eq_sum_min (x y : List Byte) (hx : x.length < 2 ^ 63)
    (hy : y.length < 2 ^ 63) (keys : List Byte) (hk : keys.Perm (countBytes [] x).keys) :
    commonBytesLoop (countBytes [] x) (countBytes [] y) keys 0 =
        ∑ v : Byte, min (x.count v) (y.count v) ∧
      commonBytes x y = ∑ v : Byte, min (x.count v) (y.count v) := by
  refine ⟨?_, commonBytes_eq_sum x y hx hy⟩
  rw [commonBytesLoop_perm _ _ _ _ hk]
  exact commonBytes_eq_sum x y hx hy

theorem C4_commonBytes_eq_sum_min_witness :
    commonBytesLoop (countBytes [] fileF2.Contents) (countBytes [] fileF1.Contents) [98, 97] 0 =
        ∑ v : Byte, min (fileF2.Contents.count v) (fileF1.Contents.count v) ∧
      commonBytes fileF2.Contents fileF1.Contents =
        ∑ v : Byte, min (fileF2.Contents.count v) (fileF1.Contents.count v) :=
  C4_commonBytes_eq_sum_min fileF2.Contents fileF1.Contents (by decide) (by decide) [98, 97]
    (List.Perm.swap 97 98 [])

/-- C10, as stated, fails: on two empty contents `calculateSimilarity` does not return
`0.0`. -/
theorem C10_counterexample : calculateSimilarity fileE1 fileE2 ≠ Float64.fin 0 := by
  rw [calculateSimilarity_nil fileE1 fileE2 rfl rfl]
  exact fun h => Float64.noConfusion h

/-- C10, amended: on two empty contents `calculateSimilarity` has no guard for the zero
divisor; it evaluates `0 / 0` in float64 arithmetic, which does not panic, and returns
NaN, a value that compares false with every threshold. -/
theorem C10_empty_contents_nan (file1 file2 : File) (h1 : file1.Contents = [])
    (h2 : file2.Contents = []) :
    calculateSimilarity file1 file2 = Float64.nan ∧
      ∀ t : Float64, Float64.ge (calculateSimilarity file1 file2) t = false := by
  rw [calculateSimilarity_nil file1 file2 h1 h2]
  exact ⟨rfl, Float64.ge_nan⟩

theorem C10_empty_contents_nan_witness :
    calculateSimilarity fileE1 fileE2 = Float64.nan ∧
      ∀ t : Float64, Float64.ge (calculateSimilarity fileE1 fileE2) t = false :=
  C10_empty_contents_nan fileE1 fileE2 rfl rfl

/-! ## The comparison loop: properties -/

section LoopClaims

variable {D : Type} [DecidableEq D]

/-- C5: for a file `a` of A and a file `b` of B with byte-identical contents, whatever the
threshold, the loop body records `identicalFiles[a.Path] = b.Path`, marks both paths and
leaves `similarFiles` as it was; after the loop `a.Path` is a key of `identicalFiles`,
both paths are marked, and with unique paths in each directory `similarFiles[a.Path]
[b.Path]` is absent. -/
theorem C5_identical_never_similar (sum256 : List Byte → D) (t : Float64) (A B : List File)
    (a b : File) (ha : a ∈ A) (hb : b ∈ B) (hc : a.Contents = b.Contents) :
    (∀ s : Tables,
        (compareFiles sum256 t s a b).identicalFiles.get? a.Path = some b.Path ∧
        (compareFiles sum256 t s a b).similarFiles = s.similarFiles ∧
        (compareFiles sum256 t s a b).similarFilesFromDir1.contains a.Path = true ∧
        (compareFiles sum256 t s a b).similarFilesFromDir2.contains b.Path = true) ∧
      (classify sum256 t A B).identicalFiles.contains a.Path = true ∧
      (classify sum256 t A B).similarFilesFromDir1.contains a.Path = true ∧
      (classify sum256 t A B).similarFilesFromDir2.contains b.Path = true ∧
      ((A.map File.Path).Nodup → (B.map File.Path).Nodup →
        lookup2 (classify sum256 t A B).similarFiles a.Path b.Path = none) := by
  have hd : sum256 a.Contents = sum256 b.Contents := by rw [hc]
  have hm : matched sum256 t a b = true := by simp [matched, hd]
  refine ⟨?_, ?_, ?_, ?_, ?_⟩
  · intro s
    refine ⟨?_, ?_, ?_, ?_⟩
    · rw [compareFiles_identical]
      simp [hd]
    · simp [compareFiles, hd]
    · rw [compareFiles_dir1]
      simp [hm]
    · rw [compareFiles_dir2]
      simp [hm]
  · exact (identical_contains_iff sum256 t A B a.Path).mpr ⟨a, ha, b, hb, rfl, hd⟩
  · exact (dir1_contains_iff sum256 t A B a.Path).mpr ⟨a, ha, b, hb, rfl, hm⟩
  · exact (dir2_contains_iff sum256 t A B b.Path).mpr ⟨a, ha, b, hb, rfl, hm⟩
  · intro hnA hnB
    rw [similar_unique sum256 t A B a b ha hb hnA hnB]
    simp [hd]

theorem C5_identical_never_similar_witness :
    (∀ s : Tables,
        (compareFiles contentDigest (Float64.fin 50) s fileF1 fileF2same).identicalFiles.get?
            fileF1.Path = some fileF2same.Path ∧
        (compareFiles contentDigest (Float64.fin 50) s fileF1 fileF2same).similarFiles
            = s.similarFiles ∧
        (compareFiles contentDigest (Float64.fin 50) s fileF1
            fileF2same).similarFilesFromDir1.contains fileF1.Path = true ∧
        (compareFiles contentDigest (Float64.fin 50) s fileF1
            fileF2same).similarFilesFromDir2.contains fileF2same.Path = true) ∧
      (classify contentDigest (Float64.fin 50) [fileF1] [fileF2same]).identicalFiles.contains
          fileF1.Path = true ∧
      (classify contentDigest (Float64.fin 50) [fileF1]
          [fileF2same]).similarFilesFromDir1.contains fileF1.Path = true ∧
      (classify contentDigest (Float64.fin 50) [fileF1]
          [fileF2same]).similarFilesFromDir2.contains fileF2same.Path = true ∧
      (([fileF1].map File.Path).Nodup → ([fileF2same].map File.Path).Nodup →
        lookup2 (classify contentDigest (Float64.fin 50) [fileF1] [fileF2same]).similarFiles
          fileF1.Path fileF2same.Path = none) :=
  C5_identical_never_similar contentDigest (Float64.fin 50) [fileF1] [fileF2same] fileF1
    fileF2same (by decide) (by decide) (by decide)

/-- C6: with unique paths in each directory and any threshold `t`, the final
`similarFiles` holds an entry `a.Path -> b.Path -> v` for files `a` of A and `b` of B
exactly when their digests differ, `v` is `calculateSimilarity(a, b)` and `v >= t` (so a
score equal to `t` is kept and every matching `b` has its own entry); and it holds no
entry that does not come from such a pair. -/
theorem C6_similar_iff_threshold (sum256 : List Byte → D) (t : Float64) (A B : List File)
    (hnA : (A.map File.Path).Nodup) (hnB : (B.map File.Path).Nodup) :
    (∀ a ∈ A, ∀ b ∈ B, ∀ v : Float64,
        lookup2 (classify sum256 t A B).similarFiles a.Path b.Path = some v ↔
          (sum256 a.Contents ≠ sum256 b.Contents ∧ v = calculateSimilarity a b ∧
            Float64.ge v t = true)) ∧
      (∀ (p q : String) (v : Float64),
        lookup2 (classify sum256 t A B).similarFiles p q = some v →
          ∃ a ∈ A, ∃ b ∈ B, a.Path = p ∧ b.Path = q) := by
  constructor
  · intro a ha b hb v
    rw [similar_unique sum256 t A B a b ha hb hnA hnB]
    by_cases hd : sum256 a.Contents = sum256 b.Contents
    · simp [hd]
    · by_cases hg : (calculateSimilarity a b).ge t = true
      · simp only [hd, hg, decide_False, Bool.not_false, Bool.and_self, if_true,
          Option.some.injEq, ne_eq, not_false_eq_true, true_and]
        constructor
        · intro h
          exact ⟨h.symm, h ▸ hg⟩
        · intro h
          exact h.1.symm
      · have hf : (calculateSimilarity a b).ge t = false := by simpa using hg
        simp only [hd, hf, decide_False, Bool.not_false, Bool.true_and, ne_eq,
          not_false_eq_true, true_and]
        constructor
        · intro h
          exact absurd h (by simp)
        · intro h
          rw [h.1, hf] at h
          exact absurd h.2 (by simp)
  · intro p q v h
    obtain ⟨a, ha, b, hb, h1, h2, _⟩ := similar_entry_sound sum256 t A B p q v h
    exact ⟨a, ha, b, hb, h1, h2⟩

theorem C6_similar_iff_threshold_witness :
    ([fileF1].map File.Path).Nodup ∧ ([fileF2].map File.Path).Nodup ∧
      lookup2 (classify contentDigest (Float64.fin 50) [fileF1] [fileF2]).similarFiles
        "f1" "f2" = some (Float64.fin 50) ∧
      lookup2 (classify contentDigest (Float64.fin 51) [fileF1] [fileF2]).similarFiles
        "f1" "f2" = none := by
  refine ⟨by decide, by decide, ?_, ?_⟩
  · refine ((C6_similar_iff_threshold contentDigest (Float64.fin 50) [fileF1] [fileF2]
      (by decide) (by decide)).1 fileF1 (by decide) fileF2 (by decide) (Float64.fin 50)).mpr
      ⟨by decide, calculateSimilarity_fileF1_fileF2.symm, ?_⟩
    simp [Float64.ge, Float64.le]
  · cases h : lookup2 (classify contentDigest (Float64.fin 51) [fileF1] [fileF2]).similarFiles
        "f1" "f2" with
    | none => rfl
    | some v =>
      have h3 := ((C6_similar_iff_threshold contentDigest (Float64.fin 51) [fileF1] [fileF2]
        (by decide) (by decide)).1 fileF1 (by decide) fileF2 (by decide) v).mp h
      rw [h3.2.1, calculateSimilarity_fileF1_fileF2] at h3
      simp [Float64.ge, Float64.le] at h3
      norm_num at h3

/-- C7: with unique paths in A, `identicalFiles` has the key `a.Path` of a file `a` of A
exactly when some record of B has the digest of `a`; the value stored is the path of the
last such record in the order of B; and it has no other key. -/
theorem C7_identical_last_wins (sum256 : List Byte → D) (t : Float64) (A B : List File)
    (hnA : (A.map File.Path).Nodup) :
    (∀ a ∈ A, ((classify sum256 t A B).identicalFiles.contains a.Path = true ↔
        ∃ b ∈ B, sum256 b.Contents = sum256 a.Contents)) ∧
      (∀ a ∈ A, (classify sum256 t A B).identicalFiles.get? a.Path =
        ((B.filter (fun b => decide (sum256 a.Contents = sum256 b.Contents))).getLast?).map
          File.Path) ∧
      (∀ p, p ∉ A.map File.Path → (classify sum256 t A B).identicalFiles.get? p = none) := by
  refine ⟨?_, ?_, ?_⟩
  · intro a ha
    unfold GoMap.contains
    rw [identical_unique sum256 t A B a ha hnA, Option.isSome_map', List.getLast?_isSome, Ne,
      List.filter_eq_nil_iff]
    simp only [decide_eq_true_eq, not_forall, not_not, exists_prop]
    constructor
    · rintro ⟨b, hb, h⟩
      exact ⟨b, hb, h.symm⟩
    · rintro ⟨b, hb, h⟩
      exact ⟨b, hb, h.symm⟩
  · intro a ha
    exact identical_unique sum256 t A B a ha hnA
  · intro p hp
    rw [identical_lookup, filter_product_no_path A B p hp
      (fun x y => decide (sum256 x.Contents = sum256 y.Contents))]
    rfl

theorem C7_identical_last_wins_witness :
    (dirOne.map File.Path).Nodup ∧
      (classify contentDigest (Float64.fin 50) dirOne dirTwoCopies).identicalFiles.get? "a"
        = some "b2" := by
  refine ⟨by decide, ?_⟩
  have h := (C7_identical_last_wins contentDigest (Float64.fin 50) dirOne dirTwoCopies
    (by decide)).2.1 ⟨"a", [120]⟩ (by decide)
  rw [h]
  decide

/-- C8: after the loop the paths marked in `similarFilesFromDir1` are exactly the keys of
`identicalFiles` together with the keys of `similarFiles`, and the paths printed as only
in dir1 are exactly the paths of A outside them: every path of A is in exactly one of
the two. -/
theorem C8_dir1_partition (sum256 : List Byte → D) (t : Float64) (A B : List File)
    (p : String) :
    (p ∈ (classify sum256 t A B).similarFilesFromDir1.keys ↔
        p ∈ (classify sum256 t A B).identicalFiles.keys ∨
          p ∈ (classify sum256 t A B).similarFiles.keys) ∧
      (p ∈ onlyInDir1 (classify sum256 t A B) A ↔
        p ∈ A.map File.Path ∧
          ¬(p ∈ (classify sum256 t A B).identicalFiles.keys ∨
            p ∈ (classify sum256 t A B).similarFiles.keys)) ∧
      (p ∈ (classify sum256 t A B).similarFilesFromDir1.keys → p ∈ A.map File.Path) := by
  have h1 : p ∈ (classify sum256 t A B).similarFilesFromDir1.keys ↔
      p ∈ (classify sum256 t A B).identicalFiles.keys ∨
        p ∈ (classify sum256 t A B).similarFiles.keys := by
    rw [GoMap.mem_keys_iff, GoMap.mem_keys_iff, GoMap.mem_keys_iff, dir1_eq_keys,
      Bool.or_eq_true]
  refine ⟨h1, ?_, ?_⟩
  · rw [mem_onlyInDir1_iff, ← h1, GoMap.mem_keys_iff]
    simp
  · rw [GoMap.mem_keys_iff, dir1_contains_iff]
    rintro ⟨a, ha, _, _, hp, _⟩
    exact hp ▸ List.mem_map_of_mem File.Path ha

/-- C9, as stated, fails: with one file in A and two copies of it in B, the path `b1` is
not the value of `identicalFiles` (the later copy `b2` overwrote it) and is no inner key
of `similarFiles`, yet it is not printed as only in dir2. -/
theorem C9_counterexample :
    (classify contentDigest (Float64.fin 50) dirOne dirTwoCopies).identicalFiles
        = [("a", "b2")] ∧
      (classify contentDigest (Float64.fin 50) dirOne dirTwoCopies).similarFiles = [] ∧
      "b1" ∈ dirTwoCopies.map File.Path ∧
      "b1" ∉ onlyInDir2 (classify contentDigest (Float64.fin 50) dirOne dirTwoCopies)
        dirTwoCopies := by
  decide

/-- C9, amended: the paths printed as only in dir2 are exactly the paths of B that are
not marked in `similarFilesFromDir2`, that is the paths of B for which no pair had equal
digests or a similarity reaching the threshold; every value of `identicalFiles` and every
inner key of `similarFiles` is marked, hence not printed. -/
theorem C9_onlyInDir2_unmarked (sum256 : List Byte → D) (t : Float64) (A B : List File)
    (q : String) :
    (q ∈ onlyInDir2 (classify sum256 t A B) B ↔
        q ∈ B.map File.Path ∧
          ¬∃ a ∈ A, ∃ b ∈ B, b.Path = q ∧ matched sum256 t a b = true) ∧
      ((∃ p, (classify sum256 t A B).identicalFiles.get? p = some q) →
        q ∉ onlyInDir2 (classify sum256 t A B) B) ∧
      ((∃ p v, lookup2 (classify sum256 t A B).similarFiles p q = some v) →
        q ∉ onlyInDir2 (classify sum256 t A B) B) := by
  have hmark := dir2_of_entry sum256 t A B q
  refine ⟨?_, ?_, ?_⟩
  · rw [mem_onlyInDir2_iff, ← dir2_contains_iff sum256 t A B q]
    simp
  · intro h hq
    rw [mem_onlyInDir2_iff] at hq
    rw [hmark (Or.inl h)] at hq
    exact Bool.noConfusion hq.2
  · intro h hq
    rw [mem_onlyInDir2_iff] at hq
    rw [hmark (Or.inr h)] at hq
    exact Bool.noConfusion hq.2

theorem C9_onlyInDir2_unmarked_witness :
    "b2" ∉ onlyInDir2 (classify contentDigest (Float64.fin 50) dirOne dirTwoCopies)
      dirTwoCopies :=
  (C9_onlyInDir2_unmarked contentDigest (Float64.fin 50) dirOne dirTwoCopies "b2").2.1
    ⟨"a", by decide⟩

end LoopClaims

/-! ## Rounding: particular values -/

namespace Float64

theorem rnInt_eq_of_lt_half (t : ℚ) (n : ℤ) (h1 : (n : ℚ) ≤ t) (h2 : t < n + 1 / 2) :
    rnInt t = n := by
  have hf : ⌊t⌋ = n := by
    rw [Int.floor_eq_iff]
    exact ⟨h1, by linarith⟩
  unfold rnInt
  rw [hf, if_pos (by linarith)]

theorem rnInt_tie_even (n : ℤ) (he : n % 2 = 0) : rnInt ((n : ℚ) + 1 / 2) = n := by
  have hf : ⌊(n : ℚ) + 1 / 2⌋ = n := by
    rw [Int.floor_eq_iff]
    constructor <;> linarith
  unfold rnInt
  rw [hf, if_neg (by norm_num), if_neg (by norm_num), if_pos he]

theorem ulpExp_eq_of (q : ℚ) (k : ℤ) (hk : -1022 ≤ k) (h1 : (2 : ℚ) ^ k ≤ q)
    (h2 : q < 2 ^ (k + 1)) : ulpExp q = k - 52 := by
  have hpos : 0 < q := lt_of_lt_of_le (zpow_pos (by norm_num) _) h1
  have hlo : k ≤ Int.log 2 q :=
    (Int.zpow_le_iff_le_log (by norm_num) hpos).mp (by simpa using h1)
  have hhi : Int.log 2 q < k + 1 :=
    (Int.lt_zpow_iff_log_lt (by norm_num) hpos).mp (by simpa using h2)
  unfold ulpExp
  rw [abs_of_pos hpos, max_eq_left (by omega)]
  omega

/-- The integer `2 ^ 53 + 1` lies halfway between two binary64 numbers and is rounded to
the even one, `2 ^ 53`. -/
theorem roundFin_two_pow_53_add_one : roundFin (2 ^ 53 + 1) = 2 ^ 53 := by
  have hu : ulpExp (2 ^ 53 + 1) = 1 := by
    rw [ulpExp_eq_of (2 ^ 53 + 1) 53 (by norm_num) (by norm_num) (by norm_num)]
    norm_num
  unfold roundFin
  rw [hu]
  have ht : ((2 : ℚ) ^ 53 + 1) / 2 ^ (1 : ℤ) = ((2 ^ 52 : ℤ) : ℚ) + 1 / 2 := by
    norm_num
  rw [ht, rnInt_tie_even _ (by norm_num)]
  norm_num

theorem roundFin_two_pow_53 : roundFin (2 ^ 53) = 2 ^ 53 := by
  have := roundFin_eq_self 1 53 (by norm_num) (by norm_num)
  rw [zpow_ofNat] at this
  simpa using this

/-- The largest binary64 number below 1. -/
theorem roundFin_pred_one : roundFin (1 - 1 / 2 ^ 53) = 1 - 1 / 2 ^ 53 := by
  have := roundFin_eq_self (2 ^ 53 - 1) (-53) (by norm_num) (by norm_num)
  have e : (((2 ^ 53 - 1 : ℤ)) : ℚ) * 2 ^ (-53 : ℤ) = 1 - 1 / 2 ^ 53 := by
    norm_num
  rwa [e] at this

/-- One hundred times the largest binary64 number below 1 is rounded below 100. -/
theorem roundFin_pred_hundred : roundFin ((1 - 1 / 2 ^ 53) * 100) < 100 := by
  have hu : ulpExp ((1 - 1 / 2 ^ 53) * 100) = -46 := by
    rw [ulpExp_eq_of ((1 - 1 / 2 ^ 53) * 100) 6 (by norm_num) (by norm_num) (by norm_num)]
    norm_num
  unfold roundFin
  rw [hu, rnInt_eq_of_lt_half _ (100 * 2 ^ 46 - 1) (by norm_num) (by norm_num)]
  norm_num

/-- For integers `c < m` that binary64 represents exactly, `float64(c) / float64(m) *
100.0` is a finite number below 100. -/
theorem score_lt_hundred (c m : ℕ) (hc : c < m) (hm : m < 2 ^ 53) :
    roundFin (roundFin (roundFin c / roundFin m) * 100) < 100 := by
  have hmpos : (0 : ℚ) < m := by exact_mod_cast lt_of_le_of_lt (Nat.zero_le c) hc
  rw [roundFin_natCast_of_lt c (lt_trans hc hm), roundFin_natCast_of_lt m hm]
  have hq0 : (0 : ℚ) ≤ (c : ℚ) / m := div_nonneg (by positivity) hmpos.le
  have hq : (c : ℚ) / m ≤ 1 - 1 / 2 ^ 53 := by
    rw [div_le_iff₀ hmpos]
    have h1 : (c : ℚ) + 1 ≤ m := by exact_mod_cast hc
    have h2 : (m : ℚ) ≤ 2 ^ 53 := by exact_mod_cast hm.le
    have h3 : (m : ℚ) / 2 ^ 53 ≤ 1 := (div_le_one (by norm_num)).mpr h2
    have h4 : (1 - 1 / 2 ^ 53) * (m : ℚ) = m - m / 2 ^ 53 := by ring
    rw [h4]
    linarith
  have hr : roundFin ((c : ℚ) / m) ≤ 1 - 1 / 2 ^ 53 := by
    have := roundFin_mono hq0 hq
    rwa [roundFin_pred_one] at this
  have hr0 : 0 ≤ roundFin ((c : ℚ) / m) := roundFin_nonneg hq0
  have hy : roundFin ((c : ℚ) / m) * 100 ≤ (1 - 1 / 2 ^ 53) * 100 :=
    mul_le_mul_of_nonneg_right hr (by norm_num)
  exact lt_of_le_of_lt (roundFin_mono (mul_nonneg hr0 (by norm_num)) hy) roundFin_pred_hundred

end Float64

/-! ## The similarity metric: equal and different histograms -/

theorem commonBytes_le_min (x y : List Byte) :
    commonBytes x y ≤ min x.length y.length := by
  rw [commonBytes_eq]
  refine le_trans (Nat.mod_le _ _) (le_min ?_ ?_)
  · rw [← sum_count_eq_length x]
    exact Finset.sum_le_sum (fun v _ => le_trans (Nat.min_le_left _ _) (Nat.mod_le _ _))
  · rw [← sum_count_eq_length y]
    exact Finset.sum_le_sum (fun v _ => le_trans (Nat.min_le_right _ _) (Nat.mod_le _ _))

theorem commonBytes_perm (x y : List Byte) (h : x.Perm y) (hx : x.length < 2 ^ 63) :
    commonBytes x y = x.length := by
  have hy : y.length < 2 ^ 63 := h.length_eq ▸ hx
  rw [commonBytes_eq_sum x y hx hy]
  have hmin : ∀ v : Byte, min (x.count v) (y.count v) = x.count v := by
    intro v
    rw [h.count_eq v, min_self]
  simp only [hmin]
  exact sum_count_eq_length x

theorem calculateSimilarity_perm (file1 file2 : File)
    (h : file1.Contents.Perm file2.Contents) (hne : file1.Contents ≠ [])
    (hlen : file1.Contents.length < 2 ^ 63) :
    calculateSimilarity file1 file2 = Float64.fin 100 := by
  unfold calculateSimilarity
  rw [commonBytes_perm _ _ h hlen]
  have hM : Max file1.Contents.length file2.Contents.length = file1.Contents.length := by
    rw [Max_eq_max, ← h.length_eq, max_self]
  rw [hM]
  exact Float64.score_self _ (List.length_pos.mpr hne) hlen.le

theorem commonBytes_lt_max_of_not_perm (x y : List Byte) (h : ¬x.Perm y)
    (hx : x.length < 2 ^ 63) (hy : y.length < 2 ^ 63) :
    commonBytes x y < Max x.length y.length := by
  rw [commonBytes_eq_sum x y hx hy, Max_eq_max]
  rw [List.perm_iff_count] at h
  push_neg at h
  obtain ⟨v, hv⟩ := h
  rcases Nat.lt_or_gt_of_ne hv with hlt | hgt
  · refine lt_of_lt_of_le ?_ (le_max_right _ _)
    rw [← sum_count_eq_length y]
    exact Finset.sum_lt_sum (fun w _ => Nat.min_le_right _ _)
      ⟨v, Finset.mem_univ v, by rw [Nat.min_eq_left hlt.le]; exact hlt⟩
  · refine lt_of_lt_of_le ?_ (le_max_left _ _)
    rw [← sum_count_eq_length x]
    exact Finset.sum_lt_sum (fun w _ => Nat.min_le_left _ _)
      ⟨v, Finset.mem_univ v, by rw [Nat.min_eq_right hgt.le]; exact hgt⟩

/-- Two contents with different histograms, of lengths that binary64 represents exactly,
score a finite value below 100. -/
theorem calculateSimilarity_lt_hundred (file1 file2 : File)
    (h : ¬file1.Contents.Perm file2.Contents)
    (h1 : file1.Contents.length < 2 ^ 53) (h2 : file2.Contents.length < 2 ^ 53) :
    ∃ v : ℚ, calculateSimilarity file1 file2 = Float64.fin v ∧ 0 ≤ v ∧ v < 100 := by
  have hc := commonBytes_lt_max_of_not_perm _ _ h (lt_trans h1 (by norm_num))
    (lt_trans h2 (by norm_num))
  have hm : Max file1.Contents.length file2.Contents.length < 2 ^ 53 := by
    rw [Max_eq_max]
    exact max_lt h1 h2
  obtain ⟨he, h0, _⟩ := Float64.score_eq (commonBytes file1.Contents file2.Contents)
    (Max file1.Contents.length file2.Contents.length) hc.le
    (lt_of_le_of_lt (Nat.zero_le _) hc) (le_trans hm.le (by norm_num))
  exact ⟨_, he, h0, Float64.score_lt_hundred _ _ hc hm⟩

theorem commonBytes_replicate (a : Byte) (n k : ℕ) (hn : n < 2 ^ 63) (hk : k < 2 ^ 63) :
    commonBytes (List.replicate n a) (List.replicate k a) = min n k := by
  rw [commonBytes_eq_sum _ _ (by rwa [List.length_replicate]) (by rwa [List.length_replicate])]
  have hmin : ∀ v : Byte, min ((List.replicate n a).count v) ((List.replicate k a).count v)
      = if a = v then min n k else 0 := by
    intro v
    rw [List.count_replicate, List.count_replicate]
    by_cases hv : a = v <;> simp [hv]
  simp only [hmin]
  simp

/-- Beyond the lengths a Go process can hold, the conversion to binary64 loses the last
bit: `2 ^ 53 + 1` equal bytes against `2 ^ 53` of them would score exactly 100, the two
lengths converting to the same number.  This is why the bound `2 ^ 53` appears where a
score is shown to be below 100. -/
theorem calculateSimilarity_fileLong_fileShorter :
    calculateSimilarity fileLong fileShorter = Float64.fin 100 := by
  have hL : fileLong.Contents = List.replicate (2 ^ 53 + 1) 97 := rfl
  have hS : fileShorter.Contents = List.replicate (2 ^ 53) 97 := rfl
  unfold calculateSimilarity
  rw [hL, hS, commonBytes_replicate 97 _ _ (by norm_num) (by norm_num),
    List.length_replicate, List.length_replicate]
  have hmin : min (2 ^ 53 + 1) (2 ^ 53) = 2 ^ 53 := by norm_num
  have hmax : Max (2 ^ 53 + 1) (2 ^ 53) = 2 ^ 53 + 1 := by
    rw [Max_eq_max]
    norm_num
  rw [hmin, hmax, (Float64.score_eq (2 ^ 53) (2 ^ 53 + 1) (by norm_num) (by norm_num)
    (by norm_num)).1]
  have e1 : ((2 ^ 53 : ℕ) : ℚ) = 2 ^ 53 := by norm_num
  have e2 : ((2 ^ 53 + 1 : ℕ) : ℚ) = 2 ^ 53 + 1 := by norm_num
  rw [e1, e2, Float64.roundFin_two_pow_53, Float64.roundFin_two_pow_53_add_one,
    div_self (by norm_num), Float64.roundFin_one, one_mul, Float64.roundFin_hundred]

/-! ## The similarity metric: further properties -/

/-- C11: for non-empty byte sequences `x` and `y` with the same byte-value histogram,
that is for `y` any rearrangement of `x`, `calculateSimilarity(x, y)` is exactly `100.0`
(for a length a Go slice can have; `y` is non-empty as soon as `x` is). -/
theorem C11_same_histogram_scores_hundred (file1 file2 : File)
    (hne1 : file1.Contents ≠ []) (hlen : file1.Contents.length < 2 ^ 63)
    (hhist : ∀ v : Byte, file1.Contents.count v = file2.Contents.count v) :
    file1.Contents.Perm file2.Contents ∧
      calculateSimilarity file1 file2 = Float64.fin 100 :=
  ⟨List.perm_iff_count.mpr hhist,
    calculateSimilarity_perm file1 file2 (List.perm_iff_count.mpr hhist) hne1 hlen⟩

theorem C11_same_histogram_scores_hundred_witness :
    fileF2.Contents ≠ [] ∧ fileF3.Contents ≠ [] ∧ fileF2.Contents ≠ fileF3.Contents ∧
      calculateSimilarity fileF2 fileF3 = Float64.fin 100 :=
  ⟨by decide, by decide, by decide,
    (C11_same_histogram_scores_hundred fileF2 fileF3 (by decide) (by decide)
      (fun v => (List.Perm.cons 97 (List.Perm.swap 98 97 [98])).count_eq v)).2⟩

/-- C18: for byte sequences `x` and `y` that are not both empty,
`commonBytes <= min(len(x), len(y))`, `calculateSimilarity(x, y)` is `100.0` if and only
if `x` and `y` have the same byte-value histogram, that is `y` is a rearrangement of `x`,
and sequences of different lengths score strictly below 100.  The lengths are below
`2 ^ 53`, as those of every content a Go process can hold are (its allocator serves at
most `2 ^ 48` bytes); up to there binary64 represents each length exactly. -/
theorem C18_hundred_iff_same_histogram (file1 file2 : File)
    (hne : ¬(file1.Contents = [] ∧ file2.Contents = []))
    (h1 : file1.Contents.length < 2 ^ 53) (h2 : file2.Contents.length < 2 ^ 53) :
    commonBytes file1.Contents file2.Contents
        ≤ min file1.Contents.length file2.Contents.length ∧
      (calculateSimilarity file1 file2 = Float64.fin 100 ↔
        file1.Contents.Perm file2.Contents) ∧
      (file1.Contents.Perm file2.Contents ↔
        ∀ v : Byte, file1.Contents.count v = file2.Contents.count v) ∧
      (file1.Contents.length ≠ file2.Contents.length →
        Float64.lt (calculateSimilarity file1 file2) (Float64.fin 100) = true) := by
  have hlt : ¬file1.Contents.Perm file2.Contents →
      Float64.lt (calculateSimilarity file1 file2) (Float64.fin 100) = true ∧
        calculateSimilarity file1 file2 ≠ Float64.fin 100 := by
    intro hnp
    obtain ⟨v, hv, _, hv100⟩ := calculateSimilarity_lt_hundred file1 file2 hnp h1 h2
    rw [hv]
    constructor
    · simp only [Float64.lt, Float64.le, Bool.and_eq_true, decide_eq_true_eq,
        Bool.not_eq_true', decide_eq_false_iff_not, not_le]
      exact ⟨hv100.le, hv100⟩
    · intro he
      rw [Float64.fin.injEq] at he
      exact absurd he hv100.ne
  refine ⟨commonBytes_le_min _ _, ⟨?_, ?_⟩, List.perm_iff_count, ?_⟩
  · intro he
    by_contra hnp
    exact (hlt hnp).2 he
  · intro hp
    have hne1 : file1.Contents ≠ [] := by
      intro h
      apply hne
      refine ⟨h, ?_⟩
      rw [h] at hp
      exact List.length_eq_zero.mp (by rw [← hp.length_eq]; rfl)
    exact calculateSimilarity_perm file1 file2 hp hne1 (lt_trans h1 (by norm_num))
  · intro hl
    exact (hlt (fun hp => hl hp.length_eq)).1

theorem C18_hundred_iff_same_histogram_witness :
    ¬(fileF1.Contents = [] ∧ fileF2.Contents = []) ∧
      commonBytes fileF1.Contents fileF2.Contents
        ≤ min fileF1.Contents.length fileF2.Contents.length ∧
      (calculateSimilarity fileF1 fileF2 = Float64.fin 100 ↔
        fileF1.Contents.Perm fileF2.Contents) :=
  ⟨by decide,
    (C18_hundred_iff_same_histogram fileF1 fileF2 (by decide) (by decide) (by decide)).1,
    (C18_hundred_iff_same_histogram fileF1 fileF2 (by decide) (by decide) (by decide)).2.1⟩

/-! ## Comparisons of float64 values -/

namespace Float64

theorem le_trans_of {a b c : Float64} (h1 : le a b = true) (h2 : le b c = true) :
    le a c = true := by
  cases a <;> cases b <;> cases c <;> simp_all [le]
  exact le_trans h1 h2

theorem ge_of_ge_of_le {v t1 t2 : Float64} (h : le t1 t2 = true) (hv : ge v t2 = true) :
    ge v t1 = true :=
  le_trans_of h hv

/-- A value of at most 100 does not reach a threshold greater than 100. -/
theorem ge_false_of_gt_hundred {v : ℚ} {t : Float64} (ht : gt t (fin 100) = true)
    (hv : v ≤ 100) : ge (fin v) t = false := by
  cases t <;> simp_all [gt, lt, ge, le]
  linarith

/-- A non-negative value reaches every threshold below 0. -/
theorem ge_true_of_lt_zero {v : ℚ} {t : Float64} (ht : lt t (fin 0) = true)
    (hv : 0 ≤ v) : ge (fin v) t = true := by
  cases t <;> simp_all [lt, ge, le]
  linarith

/-- Against a threshold that is not NaN, a finite value fails `>=` exactly when it
satisfies `<`. -/
theorem ge_false_iff_lt (v : ℚ) (t : Float64) (ht : t ≠ nan) :
    ge (fin v) t = false ↔ lt (fin v) t = true := by
  cases t <;> simp_all [lt, ge, le]
  exact fun h => h.le

theorem lt_nan (a : Float64) : lt a nan = false := by
  cases a <;> rfl

end Float64

/-! ## The comparison loop: further facts -/

theorem foldl_product {σ : Type} (f : σ → File → File → σ) (A B : List File) (s : σ) :
    A.foldl (fun s a => B.foldl (fun s b => f s a b) s) s =
      (A.product B).foldl (fun s ab => f s ab.1 ab.2) s := by
  induction A generalizing s with
  | nil => rfl
  | cons a tl ih =>
    rw [List.foldl_cons, ih, product_cons_eq, List.foldl_append, List.foldl_map]

/-- Contents with different digests are different, hence not both empty. -/
theorem not_both_empty_of_digest_ne {D : Type} (sum256 : List Byte → D) (a b : File)
    (hd : sum256 a.Contents ≠ sum256 b.Contents) :
    ¬(a.Contents = [] ∧ b.Contents = []) := by
  rintro ⟨h1, h2⟩
  exact hd (by rw [h1, h2])

/-- Every call of the metric made by the loop returns a finite value between 0 and 100. -/
theorem calculateSimilarity_fin_of_digest_ne {D : Type} (sum256 : List Byte → D)
    (a b : File)
    (hd : sum256 a.Contents ≠ sum256 b.Contents)
    (h1 : a.Contents.length < 2 ^ 63) (h2 : b.Contents.length < 2 ^ 63) :
    ∃ v : ℚ, calculateSimilarity a b = Float64.fin v ∧ 0 ≤ v ∧ v ≤ 100 := by
  obtain ⟨he, h0, h100⟩ := Float64.score_eq (commonBytes a.Contents b.Contents)
    (Max a.Contents.length b.Contents.length)
    (commonBytes_le_max _ _)
    (Max_pos_of_ne_nil _ _ (not_both_empty_of_digest_ne sum256 a b hd))
    (Max_le_of_lt _ _ h1 h2)
  exact ⟨_, he, h0, h100⟩

section LoopFurther

variable {D : Type} [DecidableEq D] (sum256 : List Byte → D) (t : Float64)

theorem matched_comm (a b : File) : matched sum256 t a b = matched sum256 t b a := by
  unfold matched
  rw [calculateSimilarity_comm a b]
  by_cases h : sum256 a.Contents = sum256 b.Contents
  · simp [h]
  · have h2 : ¬sum256 b.Contents = sum256 a.Contents := fun e => h e.symm
    simp [h, h2]

theorem matched_of_le (t1 t2 : Float64) (h : Float64.le t1 t2 = true) (a b : File)
    (hm : matched sum256 t2 a b = true) : matched sum256 t1 a b = true := by
  unfold matched at hm ⊢
  rw [Bool.or_eq_true] at hm ⊢
  rcases hm with hm | hm
  · exact Or.inl hm
  · exact Or.inr (Float64.ge_of_ge_of_le h hm)

theorem compareFiles_similarFiles_eq (s : Tables) (a b : File)
    (h : sum256 a.Contents = sum256 b.Contents ∨ (calculateSimilarity a b).ge t = false) :
    (compareFiles sum256 t s a b).similarFiles = s.similarFiles := by
  unfold compareFiles
  by_cases hd : sum256 a.Contents = sum256 b.Contents
  · simp [hd]
  · rcases h with h | h
    · exact absurd h hd
    · simp [hd, h]

theorem compareFiles_identicalFiles (s : Tables) (a b : File) :
    (compareFiles sum256 t s a b).identicalFiles =
      if sum256 a.Contents = sum256 b.Contents then s.identicalFiles.set a.Path b.Path
      else s.identicalFiles := by
  unfold compareFiles
  by_cases hd : sum256 a.Contents = sum256 b.Contents
  · simp [hd]
  · by_cases hg : (calculateSimilarity a b).ge t = true <;> simp [hd, hg]

/-- A property preserved by the loop body on each pair of the list holds after the
loop. -/
theorem foldPairs_invariant_mem (Inv : Tables → Prop) (l : List (File × File))
    (hstep : ∀ s, ∀ ab ∈ l, Inv s → Inv (compareFiles sum256 t s ab.1 ab.2))
    (s : Tables) (hs : Inv s) : Inv (foldPairs sum256 t s l) := by
  induction l using List.reverseRecOn with
  | nil => exact hs
  | append_singleton l ab ih =>
    rw [foldPairs_append_singleton]
    exact hstep _ ab (by simp)
      (ih (fun s x hx hI => hstep s x (List.mem_append_left _ hx) hI))

/-- The entries of `identicalFiles` do not depend on the threshold. -/
theorem foldPairs_identicalFiles (t1 t2 : Float64) (l : List (File × File))
    (s1 s2 : Tables) (h : s1.identicalFiles = s2.identicalFiles) :
    (foldPairs sum256 t1 s1 l).identicalFiles = (foldPairs sum256 t2 s2 l).identicalFiles := by
  induction l using List.reverseRecOn with
  | nil => exact h
  | append_singleton l ab ih =>
    rw [foldPairs_append_singleton, foldPairs_append_singleton, compareFiles_identicalFiles,
      compareFiles_identicalFiles, ih]

theorem compareFilesTraced_fst (st : Tables × List (File × File)) (a b : File) :
    (compareFilesTraced sum256 t st a b).1 = compareFiles sum256 t st.1 a b := by
  unfold compareFilesTraced compareFiles
  by_cases hd : sum256 a.Contents = sum256 b.Contents
  · simp [hd]
  · by_cases hg : (calculateSimilarity a b).ge t = true <;> simp [hd, hg]

theorem compareFilesTraced_snd (st : Tables × List (File × File)) (a b : File) :
    (compareFilesTraced sum256 t st a b).2 =
      st.2 ++ [(a, b)].filter
        (fun ab => !decide (sum256 ab.1.Contents = sum256 ab.2.Contents)) := by
  unfold compareFilesTraced
  by_cases hd : sum256 a.Contents = sum256 b.Contents
  · simp [hd]
  · by_cases hg : (calculateSimilarity a b).ge t = true <;> simp [hd, hg]

/-- The traced loop over a list of pairs: the maps are those of the loop, and the calls
of the metric are the pairs with different digests, in order. -/
theorem foldl_compareFilesTraced (l : List (File × File))
    (st : Tables × List (File × File)) :
    l.foldl (fun st ab => compareFilesTraced sum256 t st ab.1 ab.2) st =
      (foldPairs sum256 t st.1 l,
        st.2 ++ l.filter (fun ab => !decide (sum256 ab.1.Contents = sum256 ab.2.Contents))) := by
  induction l using List.reverseRecOn with
  | nil => simp [foldPairs]
  | append_singleton l ab ih =>
    rw [List.foldl_append, ih, List.foldl_cons, List.foldl_nil, foldPairs_append_singleton,
      List.filter_append, ← List.append_assoc]
    exact Prod.ext (compareFilesTraced_fst sum256 t _ _ _)
      (compareFilesTraced_snd sum256 t _ _ _)

theorem classifyTraced_eq (A B : List File) :
    classifyTraced sum256 t A B =
      (classify sum256 t A B,
        (A.product B).filter
          (fun ab => !decide (sum256 ab.1.Contents = sum256 ab.2.Contents))) := by
  unfold classifyTraced
  rw [foldl_product (fun st a b => compareFilesTraced sum256 t st a b),
    foldl_compareFilesTraced, classify_eq_foldPairs]
  simp

end LoopFurther

/-! ## The comparison loop: thresholds outside the range, and the calls of the metric -/

section LoopFurtherClaims

variable {D : Type} [DecidableEq D]

/-- C12: if the threshold is greater than 100 then no pair matches as similar: after the
loop `similarFiles` is empty, and a path of A or of B is marked as matched only through
a pair with equal digests.  (File lengths are those a Go slice can have.) -/
theorem C12_threshold_above_hundred (sum256 : List Byte → D) (t : Float64)
    (A B : List File) (ht : Float64.gt t (Float64.fin 100) = true)
    (hA : ∀ f ∈ A, f.Contents.length < 2 ^ 63) (hB : ∀ f ∈ B, f.Contents.length < 2 ^ 63) :
    (classify sum256 t A B).similarFiles = [] ∧
      (∀ p, (classify sum256 t A B).similarFilesFromDir1.contains p = true ↔
        ∃ a ∈ A, ∃ b ∈ B, a.Path = p ∧ sum256 a.Contents = sum256 b.Contents) ∧
      (∀ q, (classify sum256 t A B).similarFilesFromDir2.contains q = true ↔
        ∃ a ∈ A, ∃ b ∈ B, b.Path = q ∧ sum256 a.Contents = sum256 b.Contents) := by
  have key : ∀ a ∈ A, ∀ b ∈ B, sum256 a.Contents ≠ sum256 b.Contents →
      (calculateSimilarity a b).ge t = false := by
    intro a ha b hb hd
    obtain ⟨v, hv, _, h100⟩ :=
      calculateSimilarity_fin_of_digest_ne sum256 a b hd (hA a ha) (hB b hb)
    rw [hv]
    exact Float64.ge_false_of_gt_hundred ht h100
  have hm : ∀ a ∈ A, ∀ b ∈ B,
      (matched sum256 t a b = true ↔ sum256 a.Contents = sum256 b.Contents) := by
    intro a ha b hb
    unfold matched
    by_cases hd : sum256 a.Contents = sum256 b.Contents
    · simp [hd]
    · simp [hd, key a ha b hb hd]
  refine ⟨?_, ?_, ?_⟩
  · rw [classify_eq_foldPairs]
    apply foldPairs_invariant_mem sum256 t (fun s => s.similarFiles = [])
    · intro s ab hab hs
      rw [mem_product_iff] at hab
      rw [compareFiles_similarFiles_eq, hs]
      by_cases hd : sum256 ab.1.Contents = sum256 ab.2.Contents
      · exact Or.inl hd
      · exact Or.inr (key ab.1 hab.1 ab.2 hab.2 hd)
    · rfl
  · intro p
    rw [dir1_contains_iff]
    constructor
    · rintro ⟨a, ha, b, hb, hp, h⟩
      exact ⟨a, ha, b, hb, hp, (hm a ha b hb).mp h⟩
    · rintro ⟨a, ha, b, hb, hp, h⟩
      exact ⟨a, ha, b, hb, hp, (hm a ha b hb).mpr h⟩
  · intro q
    rw [dir2_contains_iff]
    constructor
    · rintro ⟨a, ha, b, hb, hp, h⟩
      exact ⟨a, ha, b, hb, hp, (hm a ha b hb).mp h⟩
    · rintro ⟨a, ha, b, hb, hp, h⟩
      exact ⟨a, ha, b, hb, hp, (hm a ha b hb).mpr h⟩

theorem C12_threshold_above_hundred_witness :
    Float64.gt (Float64.fin 101) (Float64.fin 100) = true ∧
      (classify contentDigest (Float64.fin 101) [fileF1] [fileF2]).similarFiles = [] :=
  ⟨by norm_num [Float64.gt, Float64.lt, Float64.le],
    (C12_threshold_above_hundred contentDigest (Float64.fin 101) [fileF1] [fileF2]
      (by norm_num [Float64.gt, Float64.lt, Float64.le]) (by decide) (by decide)).1⟩

/-- C13: if the threshold is below 0 then every pair of a file of A and a file of B
matches: the loop body writes it into `identicalFiles` or into `similarFiles`, after the
loop the path of the A-file is a key of `identicalFiles` (equal digests) or the pair
has its entry in `similarFiles` (different digests, unique paths), nothing is printed as
only in dir1 when B is non-empty and nothing as only in dir2 when A is non-empty.
(File lengths are those a Go slice can have.) -/
theorem C13_threshold_below_zero (sum256 : List Byte → D) (t : Float64)
    (A B : List File) (ht : Float64.lt t (Float64.fin 0) = true)
    (hA : ∀ f ∈ A, f.Contents.length < 2 ^ 63) (hB : ∀ f ∈ B, f.Contents.length < 2 ^ 63) :
    (∀ a ∈ A, ∀ b ∈ B, matched sum256 t a b = true ∧
        (∀ s : Tables,
          (compareFiles sum256 t s a b).identicalFiles.get? a.Path = some b.Path ∨
          lookup2 (compareFiles sum256 t s a b).similarFiles a.Path b.Path
            = some (calculateSimilarity a b)) ∧
        (sum256 a.Contents = sum256 b.Contents →
          (classify sum256 t A B).identicalFiles.contains a.Path = true) ∧
        (sum256 a.Contents ≠ sum256 b.Contents →
          (A.map File.Path).Nodup → (B.map File.Path).Nodup →
          lookup2 (classify sum256 t A B).similarFiles a.Path b.Path
            = some (calculateSimilarity a b))) ∧
      (B ≠ [] → onlyInDir1 (classify sum256 t A B) A = []) ∧
      (A ≠ [] → onlyInDir2 (classify sum256 t A B) B = []) := by
  have key : ∀ a ∈ A, ∀ b ∈ B, sum256 a.Contents ≠ sum256 b.Contents →
      (calculateSimilarity a b).ge t = true := by
    intro a ha b hb hd
    obtain ⟨v, hv, h0, _⟩ :=
      calculateSimilarity_fin_of_digest_ne sum256 a b hd (hA a ha) (hB b hb)
    rw [hv]
    exact Float64.ge_true_of_lt_zero ht h0
  have hm : ∀ a ∈ A, ∀ b ∈ B, matched sum256 t a b = true := by
    intro a ha b hb
    unfold matched
    by_cases hd : sum256 a.Contents = sum256 b.Contents
    · simp [hd]
    · simp [hd, key a ha b hb hd]
  refine ⟨?_, ?_, ?_⟩
  · intro a ha b hb
    refine ⟨hm a ha b hb, ?_, ?_, ?_⟩
    · intro s
      by_cases hd : sum256 a.Contents = sum256 b.Contents
      · left
        rw [compareFiles_identical]
        simp [hd]
      · right
        rw [compareFiles_similar]
        simp [hd, key a ha b hb hd]
    · intro hd
      exact (identical_contains_iff sum256 t A B a.Path).mpr ⟨a, ha, b, hb, rfl, hd⟩
    · intro hd hnA hnB
      rw [similar_unique sum256 t A B a b ha hb hnA hnB]
      simp [hd, key a ha b hb hd]
  · intro hBne
    obtain ⟨b, hb⟩ := List.exists_mem_of_ne_nil B hBne
    rw [List.eq_nil_iff_forall_not_mem]
    intro p hp
    rw [mem_onlyInDir1_iff, List.mem_map] at hp
    obtain ⟨⟨a, ha, hpa⟩, hc⟩ := hp
    have := (dir1_contains_iff sum256 t A B p).mpr ⟨a, ha, b, hb, hpa, hm a ha b hb⟩
    rw [this] at hc
    exact Bool.noConfusion hc
  · intro hAne
    obtain ⟨a, ha⟩ := List.exists_mem_of_ne_nil A hAne
    rw [List.eq_nil_iff_forall_not_mem]
    intro q hq
    rw [mem_onlyInDir2_iff, List.mem_map] at hq
    obtain ⟨⟨b, hb, hqb⟩, hc⟩ := hq
    have := (dir2_contains_iff sum256 t A B q).mpr ⟨a, ha, b, hb, hqb, hm a ha b hb⟩
    rw [this] at hc
    exact Bool.noConfusion hc

theorem C13_threshold_below_zero_witness :
    Float64.lt (Float64.fin (-1)) (Float64.fin 0) = true ∧
      onlyInDir1 (classify contentDigest (Float64.fin (-1)) [fileF1] [fileF2]) [fileF1] = [] ∧
      onlyInDir2 (classify contentDigest (Float64.fin (-1)) [fileF1] [fileF2]) [fileF2] = [] :=
  ⟨by norm_num [Float64.lt, Float64.le],
    (C13_threshold_below_zero contentDigest (Float64.fin (-1)) [fileF1] [fileF2]
      (by norm_num [Float64.lt, Float64.le]) (by decide) (by decide)).2.1 (by decide),
    (C13_threshold_below_zero contentDigest (Float64.fin (-1)) [fileF1] [fileF2]
      (by norm_num [Float64.lt, Float64.le]) (by decide) (by decide)).2.2 (by decide)⟩

/-- C14: the loop calls `calculateSimilarity` exactly on the pairs with different
digests; every such pair has contents that are not both empty, so `maxLen > 0` in every
call; and a pair of two empty contents takes the identical branch without a call. -/
theorem C14_metric_never_called_on_empty_pair (sum256 : List Byte → D) (t : Float64)
    (A B : List File) :
    (classifyTraced sum256 t A B).1 = classify sum256 t A B ∧
      (classifyTraced sum256 t A B).2 =
        (A.product B).filter
          (fun ab => !decide (sum256 ab.1.Contents = sum256 ab.2.Contents)) ∧
      (∀ ab ∈ (classifyTraced sum256 t A B).2,
        ab.1 ∈ A ∧ ab.2 ∈ B ∧ ¬(ab.1.Contents = [] ∧ ab.2.Contents = []) ∧
          0 < Max ab.1.Contents.length ab.2.Contents.length) ∧
      (∀ (st : Tables × List (File × File)) (a b : File),
        a.Contents = [] → b.Contents = [] →
          (compareFilesTraced sum256 t st a b).2 = st.2 ∧
          (compareFilesTraced sum256 t st a b).1.identicalFiles.get? a.Path
            = some b.Path) := by
  refine ⟨by rw [classifyTraced_eq], by rw [classifyTraced_eq], ?_, ?_⟩
  · intro ab hab
    rw [classifyTraced_eq] at hab
    simp only [List.mem_filter, Bool.not_eq_true', decide_eq_false_iff_not] at hab
    have hmem := (mem_product_iff A B ab).mp hab.1
    have hne := not_both_empty_of_digest_ne sum256 ab.1 ab.2 hab.2
    exact ⟨hmem.1, hmem.2, hne, Max_pos_of_ne_nil _ _ hne⟩
  · intro st a b ha hb
    have hd : sum256 a.Contents = sum256 b.Contents := by rw [ha, hb]
    constructor
    · rw [compareFilesTraced_snd]
      simp [hd]
    · rw [compareFilesTraced_fst, compareFiles_identical]
      simp [hd]

end LoopFurtherClaims

/-! ## The comparison loop: one-sided results, exchange of the directories, monotonicity -/

section LoopRelations

variable {D : Type} [DecidableEq D] (sum256 : List Byte → D) (t : Float64)

theorem matched_eq_false_iff (a b : File) :
    matched sum256 t a b = false ↔
      sum256 a.Contents ≠ sum256 b.Contents ∧ (calculateSimilarity a b).ge t = false := by
  unfold matched
  by_cases hd : sum256 a.Contents = sum256 b.Contents <;> simp [hd]

/-- With unique paths in the second directory, the path of one of its files is printed
as only in dir2 exactly when the file matched no file of the first directory. -/
theorem mem_onlyInDir2_unique (A B : List File) (hnB : (B.map File.Path).Nodup)
    (b : File) (hb : b ∈ B) :
    b.Path ∈ onlyInDir2 (classify sum256 t A B) B ↔
      ∀ a ∈ A, matched sum256 t a b = false := by
  rw [mem_onlyInDir2_iff]
  constructor
  · rintro ⟨_, hc⟩ a ha
    by_contra hm
    have hm2 : matched sum256 t a b = true := by simpa using hm
    rw [(dir2_contains_iff sum256 t A B b.Path).mpr ⟨a, ha, b, hb, rfl, hm2⟩] at hc
    exact Bool.noConfusion hc
  · intro h
    refine ⟨List.mem_map_of_mem File.Path hb, ?_⟩
    by_contra hc
    have hc2 : (classify sum256 t A B).similarFilesFromDir2.contains b.Path = true := by
      simpa using hc
    obtain ⟨a, ha, b2, hb2, hp, hm⟩ := (dir2_contains_iff sum256 t A B b.Path).mp hc2
    have hbb : b2 = b := List.inj_on_of_nodup_map hnB hb2 hb hp
    rw [hbb, h a ha] at hm
    exact Bool.noConfusion hm

/-- With unique paths in the first directory, the path of one of its files is printed
as only in dir1 exactly when the file matched no file of the second directory. -/
theorem mem_onlyInDir1_unique (A B : List File) (hnA : (A.map File.Path).Nodup)
    (a : File) (ha : a ∈ A) :
    a.Path ∈ onlyInDir1 (classify sum256 t A B) A ↔
      ∀ b ∈ B, matched sum256 t a b = false := by
  rw [mem_onlyInDir1_iff]
  constructor
  · rintro ⟨_, hc⟩ b hb
    by_contra hm
    have hm2 : matched sum256 t a b = true := by simpa using hm
    rw [(dir1_contains_iff sum256 t A B a.Path).mpr ⟨a, ha, b, hb, rfl, hm2⟩] at hc
    exact Bool.noConfusion hc
  · intro h
    refine ⟨List.mem_map_of_mem File.Path ha, ?_⟩
    by_contra hc
    have hc2 : (classify sum256 t A B).similarFilesFromDir1.contains a.Path = true := by
      simpa using hc
    obtain ⟨a2, ha2, b, hb, hp, hm⟩ := (dir1_contains_iff sum256 t A B a.Path).mp hc2
    have haa : a2 = a := List.inj_on_of_nodup_map hnA ha2 ha hp
    rw [haa, h b hb] at hm
    exact Bool.noConfusion hm

theorem dir1_swap (A B : List File) (p : String) :
    (classify sum256 t A B).similarFilesFromDir1.contains p =
      (classify sum256 t B A).similarFilesFromDir2.contains p := by
  rw [Bool.eq_iff_iff, dir1_contains_iff, dir2_contains_iff]
  constructor
  · rintro ⟨a, ha, b, hb, hp, hm⟩
    exact ⟨b, hb, a, ha, hp, (matched_comm sum256 t a b) ▸ hm⟩
  · rintro ⟨b, hb, a, ha, hp, hm⟩
    exact ⟨a, ha, b, hb, hp, (matched_comm sum256 t b a) ▸ hm⟩

theorem similar_swap_mem (A B : List File) (hnA : (A.map File.Path).Nodup)
    (hnB : (B.map File.Path).Nodup) (a b : File) (ha : a ∈ A) (hb : b ∈ B) :
    lookup2 (classify sum256 t B A).similarFiles b.Path a.Path =
      lookup2 (classify sum256 t A B).similarFiles a.Path b.Path := by
  rw [similar_unique sum256 t B A b a hb ha hnB hnA,
    similar_unique sum256 t A B a b ha hb hnA hnB, calculateSimilarity_comm b a]
  have hd : decide (sum256 b.Contents = sum256 a.Contents)
      = decide (sum256 a.Contents = sum256 b.Contents) := by
    rw [decide_eq_decide]
    exact eq_comm
  rw [hd]

/-- With unique paths, the entries of `similarFiles` for the exchanged directories are
those of the original ones with the two paths exchanged. -/
theorem similar_swap (A B : List File) (hnA : (A.map File.Path).Nodup)
    (hnB : (B.map File.Path).Nodup) (p q : String) :
    lookup2 (classify sum256 t B A).similarFiles q p =
      lookup2 (classify sum256 t A B).similarFiles p q := by
  cases h1 : lookup2 (classify sum256 t A B).similarFiles p q with
  | some v =>
    obtain ⟨a, ha, b, hb, hp, hq, _⟩ := similar_entry_sound sum256 t A B p q v h1
    rw [← hp, ← hq, similar_swap_mem sum256 t A B hnA hnB a b ha hb, hp, hq, h1]
  | none =>
    cases h2 : lookup2 (classify sum256 t B A).similarFiles q p with
    | none => rfl
    | some v =>
      obtain ⟨b, hb, a, ha, hq, hp, _⟩ := similar_entry_sound sum256 t B A q p v h2
      rw [← hp, ← hq, similar_swap_mem sum256 t A B hnA hnB a b ha hb, hp, hq, h1] at h2
      exact Option.noConfusion h2

theorem similar_isSome_iff (A B : List File) (p q : String) :
    (lookup2 (classify sum256 t A B).similarFiles p q).isSome = true ↔
      ∃ a ∈ A, ∃ b ∈ B, a.Path = p ∧ b.Path = q ∧
        sum256 a.Contents ≠ sum256 b.Contents ∧ (calculateSimilarity a b).ge t = true := by
  constructor
  · intro h
    obtain ⟨v, hv⟩ := Option.isSome_iff_exists.mp h
    obtain ⟨a, ha, b, hb, hp, hq, hd, hve, hg⟩ := similar_entry_sound sum256 t A B p q v hv
    exact ⟨a, ha, b, hb, hp, hq, hd, hve ▸ hg⟩
  · rintro ⟨a, ha, b, hb, hp, hq, hd, hg⟩
    rw [similar_lookup, Option.isSome_map', List.getLast?_isSome, Ne, List.filter_eq_nil_iff]
    intro hall
    apply hall (a, b) ((mem_product_iff A B (a, b)).mpr ⟨ha, hb⟩)
    simp [hp, hq, hd, hg]

end LoopRelations

section LoopRelationClaims

variable {D : Type} [DecidableEq D]

/-- C15, as stated, fails for the threshold NaN, which the flag accepts: no comparison
with NaN holds, so `f2` is printed as only in dir2 although its similarity to `f1` is not
below the threshold. -/
theorem C15_counterexample :
    ([fileF1].map File.Path).Nodup ∧ ([fileF2].map File.Path).Nodup ∧
      fileF2.Path ∈ onlyInDir2 (classify contentDigest Float64.nan [fileF1] [fileF2]) [fileF2] ∧
      ¬(∀ a ∈ [fileF1], contentDigest a.Contents ≠ contentDigest fileF2.Contents ∧
          Float64.lt (calculateSimilarity a fileF2) Float64.nan = true) := by
  refine ⟨by decide, by decide, ?_, ?_⟩
  · rw [mem_onlyInDir2_unique contentDigest Float64.nan [fileF1] [fileF2] (by decide) fileF2
      (by decide)]
    intro a ha
    rw [List.mem_singleton] at ha
    rw [ha, matched_eq_false_iff, calculateSimilarity_fileF1_fileF2]
    exact ⟨by decide, rfl⟩
  · intro h
    have h2 := (h fileF1 (by decide)).2
    rw [Float64.lt_nan] at h2
    exact Bool.noConfusion h2

/-- C15, amended: with unique paths in each directory, the path of a file `b` of B is
printed as only in dir2 exactly when for every `a` of A the digests differ and
`calculateSimilarity(a, b) >= t` is false, and symmetrically for a file of A; the failed
`>=` is `calculateSimilarity(a, b) < t` whenever `t` is not NaN; when A is empty every
path of B is printed and `identicalFiles` and `similarFiles` are empty. -/
theorem C15_only_in_iff_no_match (sum256 : List Byte → D) (t : Float64) (A B : List File)
    (hnA : (A.map File.Path).Nodup) (hnB : (B.map File.Path).Nodup) :
    (∀ b ∈ B, (b.Path ∈ onlyInDir2 (classify sum256 t A B) B ↔
        ∀ a ∈ A, sum256 a.Contents ≠ sum256 b.Contents ∧
          (calculateSimilarity a b).ge t = false)) ∧
      (∀ a ∈ A, (a.Path ∈ onlyInDir1 (classify sum256 t A B) A ↔
        ∀ b ∈ B, sum256 a.Contents ≠ sum256 b.Contents ∧
          (calculateSimilarity a b).ge t = false)) ∧
      (t ≠ Float64.nan → ∀ a b : File, sum256 a.Contents ≠ sum256 b.Contents →
        a.Contents.length < 2 ^ 63 → b.Contents.length < 2 ^ 63 →
        ((calculateSimilarity a b).ge t = false ↔
          Float64.lt (calculateSimilarity a b) t = true)) ∧
      (onlyInDir2 (classify sum256 t [] B) B = B.map File.Path ∧
        (classify sum256 t [] B).identicalFiles = [] ∧
        (classify sum256 t [] B).similarFiles = []) := by
  refine ⟨?_, ?_, ?_, ?_, rfl, rfl⟩
  · intro b hb
    rw [mem_onlyInDir2_unique sum256 t A B hnB b hb]
    simp only [matched_eq_false_iff]
  · intro a ha
    rw [mem_onlyInDir1_unique sum256 t A B hnA a ha]
    simp only [matched_eq_false_iff]
  · intro ht a b hd h1 h2
    obtain ⟨v, hv, _, _⟩ := calculateSimilarity_fin_of_digest_ne sum256 a b hd h1 h2
    rw [hv]
    exact Float64.ge_false_iff_lt v t ht
  · have hc : classify sum256 t [] B = Tables.empty := rfl
    rw [hc]
    simp [onlyInDir2, Tables.empty, GoMap.contains, GoMap.get?]

theorem C15_only_in_iff_no_match_witness :
    ([fileF1].map File.Path).Nodup ∧ ([fileF2].map File.Path).Nodup ∧
      fileF2.Path ∈ onlyInDir2 (classify contentDigest (Float64.fin 51) [fileF1] [fileF2])
        [fileF2] := by
  refine ⟨by decide, by decide, ?_⟩
  rw [(C15_only_in_iff_no_match contentDigest (Float64.fin 51) [fileF1] [fileF2] (by decide)
    (by decide)).1 fileF2 (by decide)]
  intro a ha
  rw [List.mem_singleton] at ha
  rw [ha, calculateSimilarity_fileF1_fileF2]
  exact ⟨by decide, by norm_num [Float64.ge, Float64.le]⟩

/-- C16: exchanging the two directories exchanges the one-sided results, and with unique
paths in each directory `similarFiles` for (B, A) is the transpose of `similarFiles` for
(A, B), with the same scores. -/
theorem C16_exchange_directories (sum256 : List Byte → D) (t : Float64) (A B : List File) :
    onlyInDir1 (classify sum256 t A B) A = onlyInDir2 (classify sum256 t B A) A ∧
      onlyInDir2 (classify sum256 t A B) B = onlyInDir1 (classify sum256 t B A) B ∧
      ((A.map File.Path).Nodup → (B.map File.Path).Nodup → ∀ p q : String,
        lookup2 (classify sum256 t B A).similarFiles q p =
          lookup2 (classify sum256 t A B).similarFiles p q) := by
  refine ⟨?_, ?_, ?_⟩
  · simp only [onlyInDir1, onlyInDir2, dir1_swap sum256 t A B]
  · simp only [onlyInDir1, onlyInDir2, dir1_swap sum256 t B A]
  · intro hnA hnB p q
    exact similar_swap sum256 t A B hnA hnB p q

theorem C16_exchange_directories_witness :
    ([fileF1].map File.Path).Nodup ∧ ([fileF2].map File.Path).Nodup ∧
      lookup2 (classify contentDigest (Float64.fin 50) [fileF2] [fileF1]).similarFiles
          "f2" "f1" =
        lookup2 (classify contentDigest (Float64.fin 50) [fileF1] [fileF2]).similarFiles
          "f1" "f2" :=
  ⟨by decide, by decide,
    (C16_exchange_directories contentDigest (Float64.fin 50) [fileF1] [fileF2]).2.2
      (by decide) (by decide) "f1" "f2"⟩

/-- C17: for thresholds `t1 <= t2`, `identicalFiles` is the same for both, every entry of
`similarFiles` produced with `t2` is produced with `t1` (with the same score when paths
are unique in each directory), and the paths printed as only in dir1 or only in dir2
with `t1` are printed with `t2` too. -/
theorem C17_monotone_in_threshold (sum256 : List Byte → D) (t1 t2 : Float64)
    (A B : List File) (h : Float64.le t1 t2 = true) :
    (classify sum256 t1 A B).identicalFiles = (classify sum256 t2 A B).identicalFiles ∧
      (∀ p q : String, (lookup2 (classify sum256 t2 A B).similarFiles p q).isSome = true →
        (lookup2 (classify sum256 t1 A B).similarFiles p q).isSome = true) ∧
      ((A.map File.Path).Nodup → (B.map File.Path).Nodup → ∀ (p q : String) (v : Float64),
        lookup2 (classify sum256 t2 A B).similarFiles p q = some v →
          lookup2 (classify sum256 t1 A B).similarFiles p q = some v) ∧
      (∀ p, p ∈ onlyInDir1 (classify sum256 t1 A B) A →
        p ∈ onlyInDir1 (classify sum256 t2 A B) A) ∧
      (∀ q, q ∈ onlyInDir2 (classify sum256 t1 A B) B →
        q ∈ onlyInDir2 (classify sum256 t2 A B) B) := by
  refine ⟨?_, ?_, ?_, ?_, ?_⟩
  · rw [classify_eq_foldPairs, classify_eq_foldPairs]
    exact foldPairs_identicalFiles sum256 t1 t2 _ _ _ rfl
  · intro p q hs
    rw [similar_isSome_iff] at hs ⊢
    obtain ⟨a, ha, b, hb, hp, hq, hd, hg⟩ := hs
    exact ⟨a, ha, b, hb, hp, hq, hd, Float64.ge_of_ge_of_le h hg⟩
  · intro hnA hnB p q v hv
    obtain ⟨a, ha, b, hb, hp, hq, hd, hve, hg⟩ := similar_entry_sound sum256 t2 A B p q v hv
    rw [← hp, ← hq, similar_unique sum256 t1 A B a b ha hb hnA hnB]
    have hg1 : (calculateSimilarity a b).ge t1 = true :=
      Float64.ge_of_ge_of_le h (hve ▸ hg)
    simp [hd, hg1, hve]
  · intro p hp
    rw [mem_onlyInDir1_iff] at hp ⊢
    refine ⟨hp.1, ?_⟩
    by_contra hc
    have hc2 : (classify sum256 t2 A B).similarFilesFromDir1.contains p = true := by
      simpa using hc
    obtain ⟨a, ha, b, hb, hpa, hm⟩ := (dir1_contains_iff sum256 t2 A B p).mp hc2
    have := (dir1_contains_iff sum256 t1 A B p).mpr
      ⟨a, ha, b, hb, hpa, matched_of_le sum256 t1 t2 h a b hm⟩
    rw [this] at hp
    exact Bool.noConfusion hp.2
  · intro q hq
    rw [mem_onlyInDir2_iff] at hq ⊢
    refine ⟨hq.1, ?_⟩
    by_contra hc
    have hc2 : (classify sum256 t2 A B).similarFilesFromDir2.contains q = true := by
      simpa using hc
    obtain ⟨a, ha, b, hb, hqb, hm⟩ := (dir2_contains_iff sum256 t2 A B q).mp hc2
    have := (dir2_contains_iff sum256 t1 A B q).mpr
      ⟨a, ha, b, hb, hqb, matched_of_le sum256 t1 t2 h a b hm⟩
    rw [this] at hq
    exact Bool.noConfusion hq.2

theorem C17_monotone_in_threshold_witness :
    Float64.le (Float64.fin 50) (Float64.fin 51) = true ∧
      (classify contentDigest (Float64.fin 50) [fileF1] [fileF2]).identicalFiles =
        (classify contentDigest (Float64.fin 51) [fileF1] [fileF2]).identicalFiles :=
  ⟨by norm_num [Float64.le],
    (C17_monotone_in_threshold contentDigest (Float64.fin 50) (Float64.fin 51) [fileF1]
      [fileF2] (by norm_num [Float64.le])).1⟩

end LoopRelationClaims

end DirsComparator
